import Mathlib

/-!
Verification of the SomeLang / franc-style language detection core.

The detection pipeline of `src/unnamed/part_002` (the standalone franc build, the
authoritative copy) and of `src/franc-all-dev-annotated.js` (the annotated
development build) is shallowly embedded here.  JavaScript strings are modelled
as lists of UTF-16 code units (`List Nat`); the script-detection regular
expressions are modelled by their code-unit ranges together with their
surrogate-pair alternatives; JavaScript floating point results of the
confidence normalisation are modelled by `JNum`, a rational number extended
with the infinities and NaN, with exact rational division standing in for IEEE
division (the two agree on every comparison appearing in the proved
statements).  The language model data is carried verbatim as the
pipe-separated strings of the source.
-/

set_option maxRecDepth 40000

/-- UTF-16 code-unit sequence of a JavaScript string.  The texts and model
data handled here are BMP-only, so code points and code units coincide. -/
abbrev JSStr := List Nat

/-- Code units of a Lean string literal (used for the verbatim model data). -/
def stringUnits (s : String) : List Nat := s.data.map Char.toNat

/-- Splitting on the pipe character, as `String.prototype.split('|')` on code units.  As in JavaScript,
`"".split('|')` yields one empty field. -/
def splitPipe : List Nat → List (List Nat)
  | [] => [[]]
  | c :: rest =>
    match splitPipe rest with
    | w :: ws => if c = 124 then [] :: w :: ws else (c :: w) :: ws
    | [] => [[c]]

/-- First index of `t` in `l`, counting from `i` (`none` when absent). -/
def idxFrom [DecidableEq α] (i : Nat) (l : List α) (t : α) : Option Nat :=
  match l with
  | [] => none
  | x :: xs => if x = t then some i else idxFrom (i + 1) xs t

/-- Lookup in an association list with unique keys, as a JavaScript object
property read. -/
def lookupTable [DecidableEq α] : List (α × Nat) → α → Option Nat
  | [], _ => none
  | p :: ps, k => if p.1 = k then some p.2 else lookupTable ps k

/-- JavaScript object property assignment `m[k] = v`: an existing key is
updated in place, a new key is appended. -/
def objSet [DecidableEq α] (m : List (α × Nat)) (k : α) (v : Nat) : List (α × Nat) :=
  if m.any (fun p => decide (p.1 = k)) then
    m.map (fun p => if p.1 = k then (p.1, v) else p)
  else m ++ [(k, v)]

/-- The model-preprocessing loop of the source:
`let weight = model.length; while (weight--) trigrams[model[weight]] = weight`.
`buildRankTable model i` performs the assignments for the suffix of the split
model list starting at index `i`, highest index first, exactly as the
descending loop does. -/
def buildRankTable [DecidableEq α] : List α → Nat → List (α × Nat)
  | [], _ => []
  | t :: ts, i => objSet (buildRankTable ts (i + 1)) t i

/-- A built rank table, used by the pipeline only through membership test and
property read; represented by its lookup function. -/
abbrev RankTab := List Nat → Option Nat

/-- The split trigram list of one verbatim model string. -/
def modelList (s : String) : List (List Nat) := splitPipe (stringUnits s)

/-- The rank table of one model string, as a lookup function.  The descending
assignment loop of the source leaves each trigram mapped to its first index in
the split list; `lookupTable_buildRankTable` below proves this agrees with the
table built by the loop. -/
def rankOfModel (s : String) : RankTab := fun t => idxFrom 0 (modelList s) t

/-- A script-detection pattern: the BMP code-unit ranges of the regular
expression's character classes (`singles`) and its surrogate-pair alternatives
(`pairs`, a lead-unit range paired with a trail-unit range). -/
structure ScriptPat where
  singles : List (Nat × Nat)
  pairs : List ((Nat × Nat) × (Nat × Nat))

/-- Does the unit fall in one of the single-unit ranges? -/
def singleMatch (p : ScriptPat) (u : Nat) : Bool :=
  p.singles.any (fun r => decide (r.1 ≤ u) && decide (u ≤ r.2))

/-- Do two consecutive units match one of the surrogate-pair alternatives? -/
def pairMatch (p : ScriptPat) (a b : Nat) : Bool :=
  p.pairs.any (fun q =>
    decide (q.1.1 ≤ a) && decide (a ≤ q.1.2) && decide (q.2.1 ≤ b) && decide (b ≤ q.2.2))

/-- Number of matches of `value.match(expression)` for a global regex made of
character classes and surrogate-pair alternatives: a scan that consumes one
unit per single-class match and two units per pair match.  The single classes
of the source contain no surrogate units and the pair alternatives start with
a lead surrogate, so the branch order here is equivalent to the regex's
left-to-right alternation. -/
def countMatches (p : ScriptPat) : List Nat → Nat
  | [] => 0
  | [a] => if singleMatch p a then 1 else 0
  | a :: b :: rest =>
    if singleMatch p a then countMatches p (b :: rest) + 1
    else if pairMatch p a b then countMatches p rest + 1
    else countMatches p (b :: rest)
/-- Verbatim per-language trigram model strings from the `data.Latin` object of the
source (pipe-separated, most frequent first). Apostrophes are written as the escape
\x27 and non-ASCII letters appear verbatim. -/

def spaStr : String :=
  " de|de |os | la| a |la | y |ón |ión|es |ere|rec|ien|o a|der|ció|cho|ech|en |a p|ent|a l|aci|el |na |ona|e d| co|as |da | to|al |ene| en|tod| pe|e l| el|ho |nte| su|per|a t|ad | ti|ers|tie| se|rso|son|e s| pr|o d|oda|te |cia|n d| es|dad|ida| in|ne |est|ion|cio|s d|con|a e| po|men| li|n e|nci|res|su |to |tra| re| lo|tad| na|los|a s| o |ia |que| pa|rá |pro| un|s y|ual|s e|lib|nac|do |ra |er |a d|ue | qu|e e|sta|nal|ar |nes|ica|a c|ser|or |ter|se |por|cci|io |del|l d|des|ado|les|one|a a|ndi| so| cu|s p|ale|s n|ame|par|ici|oci|una|ber|s t|rta|com| di|dos|e a|imi|o s|e c|ert|las|o p|ant|dic|nto| al|ara|ibe|enc|o e|s l|cas| as|e p|ten|ali|o t|soc|y l|n c|nta|so |tos|y a|ria|n t|die|a u| fu|no |l p|ial|qui|dis|s o|hos|gua|igu| ig| ca|sar|l t| ma|l e|pre| ac|tiv|s a|re |nad|vid|era| tr|ier|cua|n p|ta |cla|ade|bre|s s|esa|ntr|ecc|a i| le|lid|das|d d|ido|ari|ind|ada|nda|fun|mie|ca |tic|eli|y d|nid|e i|odo|ios|o y|esp|iva|y e|mat|bli|r a|drá|tri|cti|tal|rim|ont|erá|us |sus|end|pen|tor|ito|ond|ori|uie|lig|n a|ist|rac|lar|rse|tar|mo |omo|ibr|n l|edi|med| me|nio|a y|eda|isf|lo |aso|l m|ias|ico|lic|ple|ste|act|tec|ote|rot|ele|ura| ni|ie |adi|u p|seg|s i|un |und|a n|lqu|alq|o i|inc|sti| si|n s|ern"

def engStr : String :=
  "the| th| an|he |nd |ion|and| to|to |tio| of|on |of | in|al |ati|or |ght|igh|rig| ri|ne |ent|one|ll |is |as |ver|ed | be|e r|in |t t|all|eve|ht | or|ery|s t|ty | ev|e h|yon| ha|ryo|e a|be |his| fr|ng |d t|has| sh|ing| hi|sha| pr| co| re|hal|nal|y a|s a|n t|ce |men|ree|fre|e s|l b|nat|for|ts |nt |n a|ity|ry |her|nce|ect|d i| pe|pro|n o|cti| fo|e e|ly |es | no|ona|ny |any|er |re |f t|e o| de|s o| wi|ter|nte|e i|ons| en| ar|res|ers|y t|per|d f| a | on|ith|l a|e t|oci|soc|lit| as| se|dom|edo|eed|nti|s e|t o|oth|wit| di|equ|t a|ted|st |y o|int|e p| ma| so| na|l o|e c|ch |d a|enc|th |are|ns |ic | un| fu|tat|ial|cia| ac|hts|nit|qua| eq| al|om |e w|d o|f h|ali|ote|n e| wh|r t|sta|ge |thi|o a|tit|ual|an |te |ess| ch|le |ary|e f|by | by|y i|tec|uni|o t|o o| li|no | la|s r| su|inc|led|rot|con| pu| he|ere|imi|r a|ntr| st| ot|eli|age|dis|s d|tle|itl|hou|son|duc|edu| wo|ate|ble|ces|at | at| fa|com|ive|o s|eme|o e|aw |law|tra|und|pen|nde|unt|oun|n s|s f|f a|tho|ms | is|act|cie|cat|uca| ed|anc|wor|ral|t i| me|o f|ily|pri|ren|ose|s c|en |d n|l c|ful|rar|nta|nst| ag|l p|min|din|sec|y e| tr|rso|ich|hic|whi|cou|ern|uri|r o|tic|iti|igi|lig|rat|rth|t f|oms|rit|d r|ee |e b|era|rou|se |ay |rs | ho|abl|e u"

def porStr : String :=
  "de | de| se|ão |os |to |em | e |do |o d| di|er |ito|eit|ser|ent|ção| a |dir|ire|rei|o s|ade|dad|uma|as |no |e d| to|nte| co|o t|tod| ou|men|que|s e|man| pr| in| qu|es | te|hum|odo|e a|da | hu|ano|te |al |tem|o e|s d|ida|m d| pe| re|o a|ou |r h|e s|cia|a e| li|o p| es|res| do| da| à |ual| em| su|açã|dos|a p|tra|est|ia |con|pro|ar |e p|is | na|rá |qua|a d| pa|com|ais|o c|ame|erá| po|uer|sta|ber|ter| o |ess|ra |e e|das|o à|nto|nal|o o|a c|ido|rda|erd| as|nci|sua|ona|des|ibe|lib|e t|ado|s n|ua |s t|ue | so|ica|ma |lqu|alq|tos|m s|a l|per|ada|oci|soc|cio|a n|par|aci|s a|pre|ont|m o|ura|a s| um|ion|e o|or |e r|pel|nta|ntr|a i|io |nac|ênc|str|ali|ria|nst| tr|a q|int|o n|a o|ca |ela|uçã|lid|e l| at|sen|ese|r d|s p|egu|seg|vid|pri|sso|ém |ime|tic|dis|raç|eci|ara| ca|nid|tru|ões|ass|seu|por|a a|m p| ex|so |r i|eçã|teç|ote|rot| le| ma|ing|a t|ran|era|rio|l d|eli|ça |sti| ne|cid|ern|utr|out|r e|e c|tad|gua|igu| ig| os|s o|ruç|ins|çõe|ios| fa|e n|sse| no|re |art|r p|rar|u p|inc|lei|cas|ico|uém|gué|ngu|nin| ni|gur|la |pen|nça|na |içã|ião|cie|ist|sem|ta |ele|e f|om |tro| ao|rel|m a|s s|tar|eda|ied|uni|e m|s i|a f|ias| cu| ac|r a|á a|rem|ei |omo|rec|for|s f|esc|ant|à s| vi|o q|ver|a u|nda|und|fun"

def fraStr : String :=
  " de|es |de |ion|nt |tio|et |ne |on | et|ent|le |oit|e d| la|e p|la |it | à |t d|roi|dro| dr| le|té |e s|ati|te |re | to|s d|men|tou|e l|ns | pe| co|son|que| au| so|e a|onn|out| un| qu| sa| pr|ute|eme| l\x27|t à| a |e e|con|des| pa|ue |ers|e c| li|a d|per|ont|s e|t l|les|ts |tre|s l|ant| ou|cti|rso|ou |ce |ux |à l|nne|ons|ité|en |un | en|er |une|n d|sa |lle| in|nte|e t| se|lib|res|a l|ire| d\x27| re|é d|nat|iqu|ur |r l|t a|s s|aux|par|nal|a p|ans|dan|qui|t p| dé|pro|s p|air| ne| fo|ert|s a|nce|au |ui |ect|du |ond|ale|lit| po|san| ch|és | na|us |com|our|ali|tra| ce|al |e o|e n|rté|ber|ibe|tes|r d|e r|its| di|êtr|pou|été|s c|à u|ell|int|fon|oci|soc|ut |ter| da|aut|ien|rai| do|iss|s n| ma|bli|ge |est|s o| du|ona|n p|pri|rs |éga| êt|ous|ens|ar |age|s t| su|cia|u d|cun|rat| es|ir |n c|e m| ét|t ê|a c| ac|ote|n t|ein| tr|a s|ndi|e q|sur|ée |ser|l n| pl|anc|lig|t s|n e|s i|t e| ég|ain|omm|act|ntr|tec|gal|ul | nu| vi|me |nda|ind|soi|st | te|pay|tat|era|il |rel|n a|dis|n s|pré|peu|rit|é e|t é|bre|sen|ill|l\x27a|d\x27a| mo|ass|lic|art| pu|abl|nta|t c|rot| on| lo|ure|l\x27e|ava|ten|nul|ivi|t i|ess|ys |ays| fa|ine|eur|rés|cla|tés|oir|eut|e f|utr|doi|ibr|ais|ins|éra|\x27en|iét|l e|s é|nté| ré|ssi| as|nse|ces|é a"

def deuStr : String :=
  "en |er |der|ein| un|nd |und|ung|cht|ich| de|sch|ng | ge|ine|ech|gen|rec|che|ie | re|eit| au|ht |die| di| ha|ch | da|ver| zu|lic|t d|in |auf| ei| in| be|hen|nde|n d|uf |ede| ve|it |ten|n s|sei|at |jed| je| se|and|rei|s r|den|ter|ne |hat|t a|r h|zu |das|ode| od|as |es | an|fre|nge| we|n u|run| fr|ere|e u|lle|ner|nte|hei|ese| so|rde|wer|ige| al|ers|n g|hte|d d| st|n j|lei|all|n a|nen|ege|ent|bei|g d|erd|t u|ren|nsc|chu| gr|kei|ens|le |ben|aft|haf|cha|tli|ges|e s| si|men| vo|lun|em |r s|ion|te |len|gru|gun|tig|unt|uch|spr|n e|ft |ei |e f| wi| sc|r d|n n|geh|r g|dar|sta|erk| er|r e|sen|eic|gle| gl|lie|e e|tz |fen|n i|nie|f g|t w|des|chl|ite|ihe|eih|ies|ruc|st |ist|n w|h a|n z|e a| ni|ang|rf |arf|gem|ale|ati|on |he |t s|ach| na|end|n o|pru|ans|sse|ern|aat|taa|ehe|e d|hli|hre|int|tio|her|nsp|de |mei| ar|r a|ffe|e b|wie|erf|abe|hab|ndl|n v|sic|t i|han|ema|nat|ber|ied|geg|d s|nun|d f|ind| me|gke|igk|ieß| fa|igu|hul|r v|dig|rch|urc|dur| du|utz|hut|tra|aus|alt|bes|str|ell|ste|ger|r o|esc|e g|rbe|arb|ohn|r b|mit|d g|r w|ntl|sow|n h|nne|etz|raf|dlu| ih|lte|man|iem|erh|eru| is|dem|lan|rt |son|isc|eli|rel|n r|e i|rli|r i| mi|e m|ild|bil| bi|eme| en|ins|für| fü|gel|öff| öf|owi|ill|wil|e v|ric|f e"

def itaStr : String :=
  " di|to | in|ion|la | de|di |re |e d|ne | e |zio|rit|a d|one|o d|ni |le |lla|itt|ess| al|iri|dir|tto|ent|ell|i i|del|ndi|ere|ind|o a| co|te |tà |ti |a s|uo |e e|gni|azi| pr|idu|ivi|duo|vid|div|ogn| og| es|i e| ha|all|ale|nte|e a|men|ser| su| ne|e l|za |i d|per|a p|ha | pe| un|con|no |sse|li |e i| o | so| li| la|pro|ia |o i|e p|o s|i s|in |ato|o h|na |e s|a l|e o|nza|ali|tti|o p|ta |so |ber|ibe|lib|o e|un | a | ri|ua |il | il|nto|pri|el | po|una|are|ame| qu|a c|ro |oni|nel|e n| ad|ual|gli|sua|ond| re|a a|i c|ri |o o|sta|ita|i o| le|ad |i a|ers|enz|ssi|à e|ità|gua|i p|e c|io | pa|ter|soc|nal|ona|naz|ist|cia|rso|ver|a e|i r|tat|lle|sia| si|rio|tra|che| se|rtà|ert|anz|eri|tut|à d|he | da|al |ant|qua|on |ari|o c| st|oci|er |dis|tri|si |ed | ed|ono| tu|ei |dei|uzi|com|att|a n|opr|rop|par|nes|i l|zza|ese|res|ien|son| eg|n c|ont|nti|pos|int|ico|rà |sun|ial|lit|sen|pre|tta|dev|nit|era|eve|ll |l i| l |nda|ina|non| no|o n|ria|str|d a|art|se |ssu|ica|raz|ett|sci|gio|ati|egu| na|i u|utt|ve | ma|do |e r|ssa|sa |a f|n p|fon| ch|d u|rim| fo|a t| sc|trà|otr|pot|n i| cu|l p|ra |ezz|a o|ini|sso|dic|ltr|uni|cie| ra|i n|ruz|tru|ste| is|der|l m|a r|pie|lia|est|dal|nta| at|tal|ntr| pu|nno|ann|ten|vit|a v"

def nldStr : String :=
  "en |an |de | de| he|ing|cht| en|der|van| va|ng |een|et |ech| ge| ee|n e|rec| re|n v|n d|nde|ver| be|er |ede|den| op|het|n i| te|lij|gen|zij| zi|ht |ijk|eli| in|t o| ve|op |and|ten|ke |ijn|e v|jn |ied| on|eft| ie|sch|n z|n o|aan|ft |eid|te |oor| we|ond|eef|ere|hee|id |in |rde|n w|t r|aar|rij|ord|wor|ens|of | of|hei|n g| vr| vo| aa|r h|hte| wo|n h|al |nd |vri|e o|ren|le |or |n a|jke|lle|eni|n b|ij |e e|g v| st|ige|die|e g|men|nge|t h|e b| za|e s|om |t e|ati|wel|erk|sta|ers| al| om|n t|zal|dig| me|ste|voo|ter|gin|re |ege|ge |g e|bes|nat| na|eke|che|ig |gel|nie|nst|e a|nig|est|e w|erw|r d|end|ona|d v|jhe|ijh|d e|ele| di|ie | do|del|n n|at |it | da|tie|e r|elk|ich|jk |vol|ijd|tel|min|len|str|lin|n s|per|t d|han| zo|hap|cha|wet| to|ven| ni|aat|ion|tio|taa|lke|eze|met|ard|waa|uit|sti|e n|doo|pen|eve|el |toe|ale|ien|ach|st |ns | wa|eme|nin|e d|bij| gr|n m|p v|esc|t w|ont|ite|man|ema| ma|nal|g o|rin|hed|t a|t v|beg|all|ijs|wij|rwi|e h| bi|gro|p d|rmi|erm|her|oon| pe|eit|kin|t z|iet|iem|e i|gem|igi| an|d o|r e|ete|e m|js | hu|oep|g z|edi|arb|zen|tin|ron|daa|teg|g t|raf|tra|eri|soo|nsc|t b| er|lan| la|ern|ar |lit|zon|d z|ze |dez|eho|d m|tig|loo|mee|ger|ali|gev|ije|ezi|gez|nli|l v|tij|eer| ar"

def polStr : String :=
  " pr|nie|pra| i |nia|ie |go |ani|raw|ia | po|ego| do|wie|iek|awo| ni|owi|ch |ek |do | ma|wo |a p|ści|ci |ej | cz| za| w |ych|ośc|rze|prz| ka|wa |eni| na| je|ażd|każ|ma |zło|czł|noś|o d|łow|y c|dy |żdy|i p|wol| lu|ny |oln| wy|stw| wo|ub |lub|lno|rod|k m|twa|dzi|na | sw|rzy|ają|ecz|czn|sta| sp|owa|o p|spo|i w|kie|a w|zys|obo|est|neg|ać |mi |cze|e w|nyc|nic|jak| ja|wsz| z |jeg|wan|ńst|o s|a i|awa|e p|yst|pos|pow| ró|o o|jąc|ony|nej|owo|dow|ów | ko|kol|aki|bez|rac|sze|iej| in|zen|pod|i i|ni | ro|cy |o w|zan|eńs|no |zne|a s|lwi|olw|ez |odn|rów|odz|o u|ne |i n|i k|czy| be|acj|wob|inn| ob|ówn|zie| ws|aln|orz|nik|o n|icz|zyn|łec|ołe|poł|aro|nar|a j|i z|tęp|stę|ien|cza|o z|ym |zec|ron|i l|ami| os|kra| kr|owe| od|ji |cji|mie|a z|bod|swo|dni|zes|ełn|peł|iu |edn|iko|a n|raj| st|odo|zna|wyc|em |lni|szy|wia|nym|ą p|ją |zeń|iec|pie|st |jes| to|sob|któ|ale|y w|ieg|och|du |ini|war|zaw|nny|roz|i o|wej|ię |się| si|nau| or|o r|kor|e s|pop|zas|niu|z p|owy|w k|ywa| ta|ymi|hro|chr| oc|jed|ki |o t|ogo|oby|ran|any|oso|a o|tór| kt|w z|dne|to |tan|h i|nan|ejs|ada|a k|iem|aw |h p|wni|ucz|ora|a d| wł|ian| dz| mo|e m|awi|ć s|gan|zez|mu |taw|dst|wią|w c|y p|kow|o j|i m|y s|bow|kog|by |j o|ier|mow|sza|b o|ju |yna"

def cmnSingles : List (Nat × Nat) :=
  [(11904, 11929), (11931, 12019), (12032, 12245), (12293, 12293), (12295, 12295), (12321, 12329), (12344, 12347), (13312, 19903), (19968, 40959), (63744, 64109), (64112, 64217)]

def cmnPairs : List ((Nat × Nat) × (Nat × Nat)) :=
  [((55323, 55323), (57314, 57314)), ((55323, 55323), (57315, 57315)), ((55323, 55323), (57328, 57328)), ((55323, 55323), (57329, 57329)), ((55360, 55400), (56320, 57343)), ((55402, 55404), (56320, 57343)), ((55407, 55410), (56320, 57343)), ((55412, 55417), (56320, 57343)), ((55424, 55427), (56320, 57343)), ((55429, 55431), (56320, 57343)), ((55401, 55401), (56320, 57055)), ((55401, 55401), (57088, 57343)), ((55405, 55405), (56320, 57145)), ((55405, 55405), (57152, 57343)), ((55406, 55406), (56320, 56349)), ((55406, 55406), (56352, 57343)), ((55411, 55411), (56320, 56993)), ((55411, 55411), (57008, 57343)), ((55418, 55418), (56320, 57312)), ((55422, 55422), (56320, 56861)), ((55428, 55428), (56320, 57162)), ((55428, 55428), (57168, 57343)), ((55432, 55432), (56320, 57263))]

def LatinSingles : List (Nat × Nat) :=
  [(65, 90), (97, 122), (170, 170), (186, 186), (192, 214), (216, 246), (248, 696), (736, 740), (7424, 7461), (7468, 7516), (7522, 7525), (7531, 7543), (7545, 7614), (7680, 7935), (8305, 8305), (8319, 8319), (8336, 8348), (8490, 8490), (8491, 8491), (8498, 8498), (8526, 8526), (8544, 8584), (11360, 11391), (42786, 42887), (42891, 42954), (42960, 42960), (42961, 42961), (42963, 42963), (42965, 42969), (42994, 43007), (43824, 43866), (43868, 43876), (43878, 43881), (64256, 64262), (65313, 65338), (65345, 65370)]

def LatinPairs : List ((Nat × Nat) × (Nat × Nat)) :=
  [((55297, 55297), (57216, 57221)), ((55297, 55297), (57223, 57264)), ((55297, 55297), (57266, 57274)), ((55351, 55351), (57088, 57118)), ((55351, 55351), (57125, 57130))]

def CyrillicSingles : List (Nat × Nat) :=
  [(1024, 1156), (1159, 1327), (7296, 7304), (7467, 7467), (7544, 7544), (11744, 11775), (42560, 42655), (65070, 65070), (65071, 65071)]

def CyrillicPairs : List ((Nat × Nat) × (Nat × Nat)) :=
  [((55352, 55352), (56368, 56429)), ((55352, 55352), (56463, 56463))]

def ArabicSingles : List (Nat × Nat) :=
  [(1536, 1540), (1542, 1547), (1549, 1562), (1564, 1566), (1568, 1599), (1601, 1610), (1622, 1647), (1649, 1756), (1758, 1791), (1872, 1919), (2160, 2190), (2192, 2192), (2193, 2193), (2200, 2273), (2275, 2303), (64336, 64450), (64467, 64829), (64832, 64911), (64914, 64967), (64975, 64975), (65008, 65023), (65136, 65140), (65142, 65276)]

def ArabicPairs : List ((Nat × Nat) × (Nat × Nat)) :=
  [((55299, 55299), (56928, 56958)), ((55299, 55299), (57085, 57087)), ((55355, 55355), (56832, 56835)), ((55355, 55355), (56837, 56863)), ((55355, 55355), (56865, 56865)), ((55355, 55355), (56866, 56866)), ((55355, 55355), (56868, 56868)), ((55355, 55355), (56871, 56871)), ((55355, 55355), (56873, 56882)), ((55355, 55355), (56884, 56887)), ((55355, 55355), (56889, 56889)), ((55355, 55355), (56891, 56891)), ((55355, 55355), (56898, 56898)), ((55355, 55355), (56903, 56903)), ((55355, 55355), (56905, 56905)), ((55355, 55355), (56907, 56907)), ((55355, 55355), (56909, 56911)), ((55355, 55355), (56913, 56913)), ((55355, 55355), (56914, 56914)), ((55355, 55355), (56916, 56916)), ((55355, 55355), (56919, 56919)), ((55355, 55355), (56921, 56921)), ((55355, 55355), (56923, 56923)), ((55355, 55355), (56925, 56925)), ((55355, 55355), (56927, 56927)), ((55355, 55355), (56929, 56929)), ((55355, 55355), (56930, 56930)), ((55355, 55355), (56932, 56932)), ((55355, 55355), (56935, 56938)), ((55355, 55355), (56940, 56946)), ((55355, 55355), (56948, 56951)), ((55355, 55355), (56953, 56956)), ((55355, 55355), (56958, 56958)), ((55355, 55355), (56960, 56969)), ((55355, 55355), (56971, 56987)), ((55355, 55355), (56993, 56995)), ((55355, 55355), (56997, 57001)), ((55355, 55355), (57003, 57019)), ((55355, 55355), (57072, 57072)), ((55355, 55355), (57073, 57073))]

def benSingles : List (Nat × Nat) :=
  [(2432, 2435), (2437, 2444), (2447, 2447), (2448, 2448), (2451, 2472), (2474, 2480), (2482, 2482), (2486, 2489), (2492, 2500), (2503, 2503), (2504, 2504), (2507, 2510), (2519, 2519), (2524, 2524), (2525, 2525), (2527, 2531), (2534, 2558)]

def benPairs : List ((Nat × Nat) × (Nat × Nat)) :=
  []

def DevanagariSingles : List (Nat × Nat) :=
  [(2304, 2384), (2389, 2403), (2406, 2431), (43232, 43263)]

def DevanagariPairs : List ((Nat × Nat) × (Nat × Nat)) :=
  [((55302, 55302), (57088, 57097))]

def jpnSingles : List (Nat × Nat) :=
  [(12353, 12438), (12445, 12447), (12449, 12538), (12541, 12543), (12784, 12799), (13008, 13054), (13056, 13143), (65382, 65391), (65393, 65437), (13312, 19893), (19968, 40879)]

def jpnPairs : List ((Nat × Nat) × (Nat × Nat)) :=
  [((55340, 55340), (56321, 56607)), ((55340, 55340), (56626, 56626)), ((55340, 55340), (56656, 56658)), ((55356, 55356), (56832, 56832)), ((55339, 55339), (57328, 57331)), ((55339, 55339), (57333, 57339)), ((55339, 55339), (57341, 57341)), ((55339, 55339), (57342, 57342)), ((55340, 55340), (56320, 56320)), ((55340, 55340), (56608, 56610)), ((55340, 55340), (56661, 56661)), ((55340, 55340), (56676, 56679))]

def korSingles : List (Nat × Nat) :=
  [(4352, 4607), (12334, 12334), (12335, 12335), (12593, 12686), (12800, 12830), (12896, 12926), (43360, 43388), (44032, 55203), (55216, 55238), (55243, 55291), (65440, 65470), (65474, 65479), (65482, 65487), (65490, 65495), (65498, 65500)]

def korPairs : List ((Nat × Nat) × (Nat × Nat)) :=
  []

def thaSingles : List (Nat × Nat) :=
  [(3585, 3642), (3648, 3675)]

def thaPairs : List ((Nat × Nat) × (Nat × Nat)) :=
  []

def hyeSingles : List (Nat × Nat) :=
  [(1329, 1366), (1369, 1418), (1421, 1423), (64275, 64279)]

def hyePairs : List ((Nat × Nat) × (Nat × Nat)) :=
  []

def ellSingles : List (Nat × Nat) :=
  [(880, 883), (885, 887), (890, 893), (895, 895), (900, 900), (902, 902), (904, 906), (908, 908), (910, 929), (931, 993), (1008, 1023), (7462, 7466), (7517, 7521), (7526, 7530), (7615, 7615), (7936, 7957), (7960, 7965), (7968, 8005), (8008, 8013), (8016, 8023), (8025, 8025), (8027, 8027), (8029, 8029), (8031, 8061), (8064, 8116), (8118, 8132), (8134, 8147), (8150, 8155), (8157, 8175), (8178, 8180), (8182, 8190), (8486, 8486), (43877, 43877)]

def ellPairs : List ((Nat × Nat) × (Nat × Nat)) :=
  [((55296, 55296), (56640, 56718)), ((55296, 55296), (56736, 56736)), ((55348, 55348), (56832, 56901))]

def HebrewSingles : List (Nat × Nat) :=
  [(1425, 1479), (1488, 1514), (1519, 1524), (64285, 64310), (64312, 64316), (64318, 64318), (64320, 64320), (64321, 64321), (64323, 64323), (64324, 64324), (64326, 64335)]

def HebrewPairs : List ((Nat × Nat) × (Nat × Nat)) :=
  []

def EthiopicSingles : List (Nat × Nat) :=
  [(4608, 4680), (4682, 4685), (4688, 4694), (4696, 4696), (4698, 4701), (4704, 4744), (4746, 4749), (4752, 4784), (4786, 4789), (4792, 4798), (4800, 4800), (4802, 4805), (4808, 4822), (4824, 4880), (4882, 4885), (4888, 4954), (4957, 4988), (4992, 5017), (11648, 11670), (11680, 11686), (11688, 11694), (11696, 11702), (11704, 11710), (11712, 11718), (11720, 11726), (11728, 11734), (11736, 11742), (43777, 43782), (43785, 43790), (43793, 43798), (43808, 43814), (43816, 43822)]

def EthiopicPairs : List ((Nat × Nat) × (Nat × Nat)) :=
  [((55353, 55353), (57312, 57318)), ((55353, 55353), (57320, 57323)), ((55353, 55353), (57325, 57325)), ((55353, 55353), (57326, 57326)), ((55353, 55353), (57328, 57342))]

/-- The `expressions` table of the source: script name to character-class pattern,
in the source object order. Each regex is represented by its BMP code-unit ranges
(`singles`) and its surrogate-pair alternatives (`pairs`, lead range × trail range). -/

def expressions : List (String × ScriptPat) :=
  [("cmn", ScriptPat.mk cmnSingles cmnPairs), ("Latin", ScriptPat.mk LatinSingles LatinPairs), ("Cyrillic", ScriptPat.mk CyrillicSingles CyrillicPairs), ("Arabic", ScriptPat.mk ArabicSingles ArabicPairs), ("ben", ScriptPat.mk benSingles benPairs), ("Devanagari", ScriptPat.mk DevanagariSingles DevanagariPairs), ("jpn", ScriptPat.mk jpnSingles jpnPairs), ("kor", ScriptPat.mk korSingles korPairs), ("tha", ScriptPat.mk thaSingles thaPairs), ("hye", ScriptPat.mk hyeSingles hyePairs), ("ell", ScriptPat.mk ellSingles ellPairs), ("Hebrew", ScriptPat.mk HebrewSingles HebrewPairs), ("Ethiopic", ScriptPat.mk EthiopicSingles EthiopicPairs)]
/-- The ratio expression `(count ? count.length : 0) / value.length || 0` of `getOccurrence`:
the match count divided by the text length.  The `|| 0` collapses the
empty-text NaN to 0, and a zero match count — for which the division and the
`|| 0` likewise produce 0 — is returned as 0 directly. -/
def jsRatio (count len : Nat) : Rat :=
  if len = 0 then 0 else if count = 0 then 0 else (count : Rat) / (len : Rat)

/-- The function `getOccurrence`: ratio of pattern matches to text length. -/
def getOccurrence (value : JSStr) (p : ScriptPat) : Rat :=
  jsRatio (countMatches p value) value.length

/-- One iteration of the `getTopScript` loop: replace the current best script
exactly when this script's occurrence ratio is strictly greater. -/
def topStep (value : JSStr) (top : Option String × Rat) (s : String × ScriptPat) :
    Option String × Rat :=
  let count := getOccurrence value s.2
  if top.2 < count then (some s.1, count) else top

/-- The function `getTopScript`: fold over the configured scripts starting from
`(undefined, -1)`. -/
def getTopScript (value : JSStr) (scripts : List (String × ScriptPat)) :
    Option String × Rat :=
  scripts.foldl (topStep value) (none, -1)

/-- Default lowercase mapping of one UTF-16 unit, modelling
`String.prototype.toLowerCase`: U+0130 (the Latin capital letter I with a dot
above) expands to the two units "i" followed by the combining dot U+0307 — the
single default mapping that changes the length of the string — while ASCII and
Latin-1 capitals fold in place; units outside these ranges are kept unchanged
(further in-place foldings are irrelevant to every statement proved here, but
the length behaviour is exact). -/
def toLowerUnit (u : Nat) : List Nat :=
  if u = 304 then [105, 775]
  else if (65 ≤ u ∧ u ≤ 90) ∨ (192 ≤ u ∧ u ≤ 222 ∧ u ≠ 215) then [u + 32] else [u]

/-- All 3-unit windows of a unit list, stride 1, as the slicing loop of
`asTuples` produces them. -/
def windows : List Nat → List (List Nat)
  | a :: b :: c :: rest => [a, b, c] :: windows (b :: c :: rest)
  | _ => []

/-- The update `trigrams[trigram] = (trigrams[trigram] || 0) + 1` on an insertion-ordered
counting object. -/
def bump : List (List Nat × Nat) → List Nat → List (List Nat × Nat)
  | [], k => [(k, 1)]
  | p :: ps, k => if p.1 = k then (p.1, p.2 + 1) :: ps else p :: bump ps k

/-- Stable insertion of `x` into a list sorted by `le`: `x` goes after every
prefix element `y` with `le y x`. -/
def insertLe (le : α → α → Bool) (x : α) : List α → List α
  | [] => [x]
  | y :: ys => if le y x then y :: insertLe le x ys else x :: y :: ys

/-- Stable sort by repeated insertion (left fold), modelling the stable
`Array.prototype.sort` of the source's comparators. -/
def sortLe (le : α → α → Bool) (l : List α) : List α :=
  l.foldl (fun acc x => insertLe le x acc) []

/-- The function `asTuples`: pad the lowercased text with one space on each side, count all
3-unit windows, and sort the (trigram, count) tuples by descending count
(comparator `(a, b) => b[1] - a[1]`). -/
def asTuples (value : JSStr) : List (List Nat × Nat) :=
  let normalized := (32 :: (value ++ [32])).flatMap toLowerUnit
  let counts := (windows normalized).foldl bump []
  sortLe (fun a b => decide (b.2 ≤ a.2)) counts

/-- JavaScript number results of the confidence normalisation: a rational, an
infinity, or NaN. -/
inductive JNum where
  | fin (q : Rat)
  | pinf
  | ninf
  | nan
deriving DecidableEq

/-- JavaScript falsiness of a number: `0` and `NaN`. -/
def jsFalsy : JNum → Bool
  | .fin q => decide (q = 0)
  | .nan => true
  | _ => false

/-- JavaScript `a || b` on numbers. -/
def jsOr (a b : JNum) : JNum := if jsFalsy a then b else a

/-- JavaScript subtraction on `JNum`. -/
def jsSub : JNum → JNum → JNum
  | .fin a, .fin b => .fin (a - b)
  | .fin _, .pinf => .ninf
  | .fin _, .ninf => .pinf
  | .pinf, .fin _ => .pinf
  | .ninf, .fin _ => .ninf
  | .pinf, .ninf => .pinf
  | .ninf, .pinf => .ninf
  | _, _ => .nan

/-- JavaScript division on `JNum` (finite arguments; the remaining cases do
not arise in the pipeline). -/
def jsDiv : JNum → JNum → JNum
  | .fin a, .fin b =>
    if b = 0 then (if a = 0 then .nan else if 0 < a then .pinf else .ninf)
    else .fin (a / b)
  | _, _ => .nan

/-- One entry of the `normalize` loop:
`1 - (distance - min) / max || 0`. -/
def jsConfidence (d mn mx : Int) : JNum :=
  jsOr (jsSub (JNum.fin 1) (jsDiv (JNum.fin ((d - mn : Int) : Rat)) (JNum.fin ((mx : Int) : Rat)))) (JNum.fin 0)

/-- The function `singleLanguageTuples`: a one-language result with confidence 1. -/
def singleLanguageTuples (language : String) : List (String × JNum) :=
  [(language, JNum.fin 1)]

/-- The sentinel `und()`: the undetermined result. -/
def und : List (String × JNum) := singleLanguageTuples "und"

/-- The function `normalize` of the standalone build (`src/unnamed/part_002`): it reads
`distances[0]` without a guard, so the empty list — on which the JavaScript
function would throw — is mapped to `none`. -/
def normalize' (value : JSStr) : List (String × Int) → Option (List (String × JNum))
  | [] => none
  | d0 :: rest =>
    let mn := d0.2
    let mx : Int := (value.length : Int) * 300 - mn
    some ((d0 :: rest).map (fun nd => (nd.1, jsConfidence nd.2 mn mx)))

/-- The function `normalize` of the annotated development build: identical arithmetic, but
guarded — the empty list yields the undetermined sentinel. -/
def normalizeDev (value : JSStr) : List (String × Int) → List (String × JNum)
  | [] => und
  | d0 :: rest =>
    let mn := d0.2
    let mx : Int := (value.length : Int) * 300 - mn
    (d0 :: rest).map (fun nd => (nd.1, jsConfidence nd.2 mn mx))

/-- The while-loop of `getDistance`, indexed exactly as in the source. -/
def getDistanceGo (trigrams : List (List Nat × Nat)) (model : RankTab)
    (index : Nat) (distance : Int) : Int :=
  if h : index < trigrams.length then
    let trigram := trigrams.get ⟨index, h⟩
    let difference : Int :=
      match model trigram.1 with
      | some rank =>
        let d : Int := (trigram.2 : Int) - (rank : Int) - 1
        if d < 0 then -d else d
      | none => 300
    getDistanceGo trigrams model (index + 1) (distance + difference)
  else distance
  termination_by trigrams.length - index

/-- The function `getDistance`: accumulate, over the input tuples, the absolute difference
`|tuple[1] - model-rank - 1|` for trigrams present in the model and the fixed
penalty `MAX_DIFFERENCE = 300` for absent ones. -/
def getDistance (trigrams : List (List Nat × Nat)) (model : RankTab) : Int :=
  getDistanceGo trigrams model 0 0

/-- The contribution of one profile tuple to `getDistance`. -/
def tupleCost (model : RankTab) (p : List Nat × Nat) : Int :=
  match model p.1 with
  | some rank =>
    let d : Int := (p.2 : Int) - (rank : Int) - 1
    if d < 0 then -d else d
  | none => 300

/-- The distance the specification describes: the same sum, but with each
trigram contributing by its 0-based position in the descending-frequency
profile instead of by its stored frequency value. -/
def specRankDistance (trigrams : List (List Nat × Nat)) (model : RankTab) : Int :=
  (trigrams.enum.map (fun p =>
    match model p.2.1 with
    | some rank =>
      let d : Int := (p.1 : Int) - (rank : Int) - 1
      if d < 0 then -d else d
    | none => 300)).sum

/-- The predicate `allow`: with no restrictions everything passes; otherwise a language must
be in `only` (when `only` is non-empty) and must not be in `ignore`. -/
def allow (language : String) (only ignore : List String) : Bool :=
  if only.isEmpty && ignore.isEmpty then true
  else (only.isEmpty || only.contains language) && !(ignore.contains language)

/-- The function `filterLanguages`: restrict a script's language table by `allow`. -/
def filterLanguages (languages : List (String × RankTab)) (only ignore : List String) :
    List (String × RankTab) :=
  if only.isEmpty && ignore.isEmpty then languages
  else languages.filter (fun nm => allow nm.1 only ignore)

/-- The function `getDistances`: score every retained language, substituting the sentinel
`[['und', 1]]` when nothing is retained, and sort ascending by distance
(comparator `(a, b) => a[1] - b[1]`). -/
def getDistances (trigrams : List (List Nat × Nat)) (languages : List (String × RankTab))
    (only ignore : List String) : List (String × Int) :=
  let langs := filterLanguages languages only ignore
  let distances := langs.map (fun nm => (nm.1, getDistance trigrams nm.2))
  if distances.isEmpty then [("und", 1)]
  else sortLe (fun a b => decide (a.2 ≤ b.2)) distances

/-- The options object: `only`/`ignore`, their legacy aliases
`whitelist`/`blacklist`, and `minLength`; absent fields are `none`. -/
structure Options where
  only : Option (List String)
  ignore : Option (List String)
  whitelist : Option (List String)
  blacklist : Option (List String)
  minLength : Option Int

/-- The merged allow-list `[...(options.whitelist || []), ...(options.only || [])]`. -/
def onlyOf (o : Options) : List String := o.whitelist.getD [] ++ o.only.getD []

/-- The merged deny-list `[...(options.blacklist || []), ...(options.ignore || [])]`. -/
def ignoreOf (o : Options) : List String := o.blacklist.getD [] ++ o.ignore.getD []

/-- The effective minimum length: `options.minLength` unless null/undefined,
else `MIN_LENGTH = 10`. -/
def minLengthOf (o : Options) : Int := o.minLength.getD 10

/-- The function `francAll` of the standalone build (`src/unnamed/part_002`), parameterised
by the script table and the preprocessed model store: short-circuit short or
empty input to the sentinel; truncate unconditionally to `MAX_LENGTH = 2048`
units; classify the script; handle unknown or single-language scripts; else
run the trigram analysis.  `none` marks the (never reached) path on which the
JavaScript function would throw inside `normalize`. -/
def francAllP (exprs : List (String × ScriptPat))
    (ndata : List (String × List (String × RankTab)))
    (value : JSStr) (options : Options) : Option (List (String × JNum)) :=
  let only := onlyOf options
  let ignore := ignoreOf options
  let minLength := minLengthOf options
  if value = [] ∨ (value.length : Int) < minLength then some und
  else
    let v := value.take 2048
    let script := getTopScript v exprs
    match script.1 with
    | none => some und
    | some s =>
      match List.lookup s ndata with
      | some languages => normalize' v (getDistances (asTuples v) languages only ignore)
      | none =>
        if script.2 = 0 ∨ allow s only ignore = false then some und
        else some (singleLanguageTuples s)

/-- The function `francAll` of the annotated development build
(`src/franc-all-dev-annotated.js`), parameterised the same way: the truncation
is conditional and `normalize` is guarded, so the result is a plain list. -/
def francAllDevP (exprs : List (String × ScriptPat))
    (ndata : List (String × List (String × RankTab)))
    (value : JSStr) (options : Options) : List (String × JNum) :=
  let only := onlyOf options
  let ignore := ignoreOf options
  let minLength := minLengthOf options
  if value = [] ∨ (value.length : Int) < minLength then und
  else
    let v := if 2048 < value.length then value.take 2048 else value
    let script := getTopScript v exprs
    match script.1 with
    | none => und
    | some s =>
      match List.lookup s ndata with
      | some languages => normalizeDev v (getDistances (asTuples v) languages only ignore)
      | none =>
        if script.2 = 0 ∨ allow s only ignore = false then und
        else singleLanguageTuples s

/-- The preprocessed Latin model table of the source data, in the source's
insertion order. -/
def latinModels : List (String × RankTab) :=
  [("spa", rankOfModel spaStr), ("eng", rankOfModel engStr), ("por", rankOfModel porStr),
   ("fra", rankOfModel fraStr), ("deu", rankOfModel deuStr), ("ita", rankOfModel itaStr),
   ("nld", rankOfModel nldStr), ("pol", rankOfModel polStr)]

/-- The store `numericData`: the preprocessed model store built from the source `data`
object (a single Latin script with eight languages). -/
def numericData : List (String × List (String × RankTab)) :=
  [("Latin", latinModels)]

/-- The function `francAll` of the standalone build with its own script table and data. -/
def francAll (value : JSStr) (options : Options) : Option (List (String × JNum)) :=
  francAllP expressions numericData value options

/-- The function `francAll` of the annotated development build, instantiated with the same
script table and model data (its own `data.js`/`expressions.js` are not part
of the repository). -/
def francAllDev (value : JSStr) (options : Options) : List (String × JNum) :=
  francAllDevP expressions numericData value options

/-! ### Generic facts about the embedded helpers -/

theorem insertLe_perm (le : α → α → Bool) (x : α) :
    ∀ l : List α, (insertLe le x l).Perm (x :: l) := by
  intro l
  induction l with
  | nil => exact List.Perm.refl _
  | cons y ys ih =>
    unfold insertLe
    by_cases h : le y x = true
    · rw [if_pos h]
      exact (ih.cons y).trans (List.Perm.swap x y ys)
    · rw [if_neg h]

theorem sortLe_foldl_perm (le : α → α → Bool) :
    ∀ (l acc : List α), (l.foldl (fun a x => insertLe le x a) acc).Perm (acc ++ l) := by
  intro l
  induction l with
  | nil => intro acc; simp
  | cons x xs ih =>
    intro acc
    have h1 := ih (insertLe le x acc)
    have h2 : (insertLe le x acc ++ xs).Perm ((x :: acc) ++ xs) :=
      (insertLe_perm le x acc).append_right xs
    exact (h1.trans h2).trans List.perm_middle.symm

theorem sortLe_perm (le : α → α → Bool) (l : List α) : (sortLe le l).Perm l := by
  simpa using sortLe_foldl_perm le l []

theorem sortLe_length (le : α → α → Bool) (l : List α) : (sortLe le l).length = l.length :=
  (sortLe_perm le l).length_eq

theorem sortLe_mem (le : α → α → Bool) (l : List α) (x : α) :
    x ∈ sortLe le l ↔ x ∈ l :=
  (sortLe_perm le l).mem_iff

/-- The ascending-by-distance comparator of `getDistances`. -/
def distLe (a b : String × Int) : Bool := decide (a.2 ≤ b.2)

theorem insertLe_pairwise_distLe (x : String × Int) (l : List (String × Int))
    (h : l.Pairwise (fun a b => a.2 ≤ b.2)) :
    (insertLe distLe x l).Pairwise (fun a b => a.2 ≤ b.2) := by
  induction l with
  | nil => simp [insertLe]
  | cons y ys ih =>
    rw [List.pairwise_cons] at h
    unfold insertLe
    by_cases hle : distLe y x = true
    · rw [if_pos hle]
      rw [List.pairwise_cons]
      refine ⟨?_, ih h.2⟩
      intro z hz
      have hz' : z ∈ x :: ys := ((insertLe_perm distLe x ys).mem_iff).mp hz
      rcases List.mem_cons.mp hz' with hz1 | hz1
      · subst hz1; exact of_decide_eq_true hle
      · exact h.1 z hz1
    · rw [if_neg hle]
      have hxy : x.2 ≤ y.2 := by
        have := of_decide_eq_false (Bool.of_not_eq_true hle)
        omega
      rw [List.pairwise_cons]
      refine ⟨?_, List.pairwise_cons.mpr h⟩
      intro z hz
      rcases List.mem_cons.mp hz with hz1 | hz1
      · subst hz1; exact hxy
      · exact le_trans hxy (h.1 z hz1)

theorem sortLe_pairwise_distLe (l : List (String × Int)) :
    (sortLe distLe l).Pairwise (fun a b => a.2 ≤ b.2) := by
  have main : ∀ (l acc : List (String × Int)), acc.Pairwise (fun a b => a.2 ≤ b.2) →
      (l.foldl (fun a x => insertLe distLe x a) acc).Pairwise (fun a b => a.2 ≤ b.2) := by
    intro l
    induction l with
    | nil => intro acc h; simpa using h
    | cons x xs ih =>
      intro acc h
      exact ih _ (insertLe_pairwise_distLe x acc h)
  exact main l [] (by simp)

/-! ### Counting facts about `asTuples` -/

/-- Total weight of a counting object: the sum of the stored counts. -/
def sumCounts (l : List (List Nat × Nat)) : Nat := (l.map (fun p => p.2)).sum

theorem bump_sum (m : List (List Nat × Nat)) (k : List Nat) :
    sumCounts (bump m k) = sumCounts m + 1 := by
  induction m with
  | nil => simp [bump, sumCounts]
  | cons p ps ih =>
    unfold bump
    by_cases h : p.1 = k
    · rw [if_pos h]; simp [sumCounts]; omega
    · rw [if_neg h]
      simp only [sumCounts, List.map_cons, List.sum_cons] at *
      omega

theorem foldl_bump_sum : ∀ (l : List (List Nat)) (m : List (List Nat × Nat)),
    sumCounts (l.foldl bump m) = sumCounts m + l.length := by
  intro l
  induction l with
  | nil => intro m; simp
  | cons x xs ih =>
    intro m
    simp only [List.foldl_cons, List.length_cons]
    rw [ih, bump_sum]
    omega

theorem bump_pos (k : List Nat) : ∀ (m : List (List Nat × Nat)),
    (∀ p ∈ m, 1 ≤ p.2) → ∀ p ∈ bump m k, 1 ≤ p.2 := by
  intro m
  induction m with
  | nil => simp [bump]
  | cons q qs ih =>
    intro h
    unfold bump
    by_cases hq : q.1 = k
    · rw [if_pos hq]
      intro p hp
      rcases List.mem_cons.mp hp with h1 | h1
      · rw [h1]; simp
      · exact h p (List.mem_cons_of_mem q h1)
    · rw [if_neg hq]
      intro p hp
      rcases List.mem_cons.mp hp with h1 | h1
      · rw [h1]; exact h q (List.mem_cons_self q qs)
      · exact ih (fun p hp => h p (List.mem_cons_of_mem q hp)) p h1

theorem foldl_bump_pos : ∀ (l : List (List Nat)) (m : List (List Nat × Nat)),
    (∀ p ∈ m, 1 ≤ p.2) → ∀ p ∈ l.foldl bump m, 1 ≤ p.2 := by
  intro l
  induction l with
  | nil => intro m h; simpa using h
  | cons x xs ih =>
    intro m h
    exact ih (bump m x) (bump_pos x m h)

theorem windows_length : ∀ l : List Nat, (windows l).length = l.length - 2 := by
  intro l
  induction l with
  | nil => rfl
  | cons a tail ih =>
    cases tail with
    | nil => rfl
    | cons b t2 =>
      cases t2 with
      | nil => rfl
      | cons c r =>
        simp only [windows, List.length_cons] at *
        omega

theorem asTuples_sum (value : JSStr) :
    sumCounts (asTuples value) = (value.flatMap toLowerUnit).length := by
  unfold asTuples
  have hperm := sortLe_perm (fun a b => decide (b.2 ≤ a.2))
      ((windows ((32 :: (value ++ [32])).flatMap toLowerUnit)).foldl bump [])
  have hsum : sumCounts (sortLe (fun a b => decide (b.2 ≤ a.2))
      ((windows ((32 :: (value ++ [32])).flatMap toLowerUnit)).foldl bump []))
      = sumCounts ((windows ((32 :: (value ++ [32])).flatMap toLowerUnit)).foldl bump []) := by
    unfold sumCounts
    exact (hperm.map (fun p => p.2)).sum_eq
  have hlen : ((32 :: (value ++ [32])).flatMap toLowerUnit).length
      = (value.flatMap toLowerUnit).length + 2 := by
    rw [List.flatMap_cons, List.flatMap_append]
    rw [show toLowerUnit 32 = [32] from rfl]
    simp [toLowerUnit]
  rw [hsum, foldl_bump_sum, windows_length, hlen]
  simp [sumCounts]

theorem asTuples_pos (value : JSStr) : ∀ p ∈ asTuples value, 1 ≤ p.2 := by
  unfold asTuples
  intro p hp
  have hmem := (sortLe_mem (fun a b => decide (b.2 ≤ a.2)) _ p).mp hp
  exact foldl_bump_pos _ [] (by simp) p hmem

/-! ### The distance loop and its bound -/

theorem getDistanceGo_eq_sum (trigrams : List (List Nat × Nat)) (model : RankTab) :
    ∀ (index : Nat) (distance : Int),
      getDistanceGo trigrams model index distance
        = distance + ((trigrams.drop index).map (tupleCost model)).sum := by
  have main : ∀ (n index : Nat) (distance : Int), trigrams.length - index = n →
      getDistanceGo trigrams model index distance
        = distance + ((trigrams.drop index).map (tupleCost model)).sum := by
    intro n
    induction n with
    | zero =>
      intro index distance hn
      have hge : trigrams.length ≤ index := by omega
      rw [getDistanceGo, dif_neg (by omega), List.drop_eq_nil_of_le hge]
      simp
    | succ n ih =>
      intro index distance hn
      have hlt : index < trigrams.length := by omega
      rw [getDistanceGo, dif_pos hlt]
      rw [ih (index + 1) _ (by omega)]
      have hdrop : trigrams.drop index = trigrams.get ⟨index, hlt⟩ :: trigrams.drop (index + 1) := by
        rw [List.drop_eq_getElem_cons hlt]
        rfl
      rw [hdrop]
      simp only [List.map_cons, List.sum_cons, tupleCost]
      rcases hmt : model (trigrams.get ⟨index, hlt⟩).1 with _ | rank <;> simp [hmt] <;> ring
  intro index distance
  exact main (trigrams.length - index) index distance rfl

theorem getDistance_eq_sum (trigrams : List (List Nat × Nat)) (model : RankTab) :
    getDistance trigrams model = (trigrams.map (tupleCost model)).sum := by
  rw [getDistance, getDistanceGo_eq_sum]
  simp

theorem idxFrom_lt [DecidableEq α] :
    ∀ (l : List α) (i : Nat) (t : α) (r : Nat), idxFrom i l t = some r → r < i + l.length := by
  intro l
  induction l with
  | nil => intro i t r h; simp [idxFrom] at h
  | cons x xs ih =>
    intro i t r h
    unfold idxFrom at h
    by_cases hx : x = t
    · rw [if_pos hx] at h
      simp only [Option.some.injEq] at h
      simp [← h]
    · rw [if_neg hx] at h
      have := ih (i + 1) t r h
      simp only [List.length_cons]
      omega

theorem rankOfModel_lt (s : String) (t : List Nat) (r : Nat)
    (h : rankOfModel s t = some r) : r < (modelList s).length := by
  have := idxFrom_lt (modelList s) 0 t r h
  omega

theorem tupleCost_le (model : RankTab)
    (hb : ∀ t r, model t = some r → r < 300)
    (p : List Nat × Nat) (hp : 1 ≤ p.2) : tupleCost model p ≤ 300 * (p.2 : Int) := by
  have hc : (1 : Int) ≤ (p.2 : Int) := by exact_mod_cast hp
  unfold tupleCost
  rcases hmt : model p.1 with _ | rank
  · show (300 : Int) ≤ 300 * (p.2 : Int)
    omega
  · have hr' : (rank : Int) < 300 := by exact_mod_cast hb p.1 rank hmt
    show (let d : Int := (p.2 : Int) - (rank : Int) - 1; if d < 0 then -d else d)
      ≤ 300 * (p.2 : Int)
    simp only []
    split <;> omega

theorem getDistance_le (trigrams : List (List Nat × Nat)) (model : RankTab)
    (hb : ∀ t r, model t = some r → r < 300)
    (hpos : ∀ p ∈ trigrams, 1 ≤ p.2) :
    getDistance trigrams model ≤ 300 * (sumCounts trigrams : Int) := by
  rw [getDistance_eq_sum]
  induction trigrams with
  | nil => simp [sumCounts]
  | cons p ps ih =>
    simp only [List.map_cons, List.sum_cons]
    have h1 := tupleCost_le model hb p (hpos p (List.mem_cons_self p ps))
    have h2 := ih (fun q hq => hpos q (List.mem_cons_of_mem p hq))
    have hsum : sumCounts (p :: ps) = p.2 + sumCounts ps := by simp [sumCounts]
    rw [hsum]
    push_cast
    omega

/-! ### Confidence values -/

/-- Is the value a rational in [0, 1]? -/
def jnIn01 : JNum → Bool
  | .fin q => decide (0 ≤ q ∧ q ≤ 1)
  | _ => false

/-- Order on confidence values (NaN incomparable, as in JavaScript). -/
def jnLeB : JNum → JNum → Bool
  | .nan, _ => false
  | _, .nan => false
  | .ninf, _ => true
  | .fin _, .ninf => false
  | .pinf, .ninf => false
  | .fin a, .fin b => decide (a ≤ b)
  | .fin _, .pinf => true
  | .pinf, .fin _ => false
  | .pinf, .pinf => true

/-- Adjacent-pairs check that a result list is sorted by non-increasing
confidence. -/
def nonIncreasingB : List (String × JNum) → Bool
  | [] => true
  | [_] => true
  | p :: q :: rest => jnLeB q.2 p.2 && nonIncreasingB (q :: rest)

theorem jsOr_fin_zero (q : Rat) : jsOr (JNum.fin q) (JNum.fin 0) = JNum.fin q := by
  unfold jsOr jsFalsy
  by_cases h : q = 0
  · simp [h]
  · simp [h]

theorem jsConfidence_val (d mn mx : Int) (h0 : mn ≤ d) (h1 : d - mn ≤ mx) :
    jsConfidence d mn mx
      = if mx = 0 then JNum.fin 0
        else JNum.fin (1 - ((d - mn : Int) : Rat) / ((mx : Int) : Rat)) := by
  unfold jsConfidence
  by_cases hmx : mx = 0
  · have hd : d - mn = 0 := by omega
    rw [if_pos hmx, hd, hmx]
    simp [jsDiv, jsSub, jsOr, jsFalsy]
  · rw [if_neg hmx]
    have hmx' : ((mx : Int) : Rat) ≠ 0 := by exact_mod_cast hmx
    rw [jsDiv, if_neg hmx']
    rw [jsSub]
    exact jsOr_fin_zero _

theorem jsConfidence_in01 (d mn mx : Int) (h0 : mn ≤ d) (h1 : d - mn ≤ mx)
    (h2 : 0 ≤ mx) : jnIn01 (jsConfidence d mn mx) = true := by
  rw [jsConfidence_val d mn mx h0 h1]
  by_cases hmx : mx = 0
  · rw [if_pos hmx]; simp [jnIn01]
  · rw [if_neg hmx]
    have hpos : (0 : Rat) < ((mx : Int) : Rat) := by
      have : (0 : Int) < mx := by omega
      exact_mod_cast this
    have hnum : (0 : Rat) ≤ ((d - mn : Int) : Rat) := by
      have : (0 : Int) ≤ d - mn := by omega
      exact_mod_cast this
    have hle : ((d - mn : Int) : Rat) ≤ ((mx : Int) : Rat) := by exact_mod_cast h1
    have hq0 : (0 : Rat) ≤ ((d - mn : Int) : Rat) / ((mx : Int) : Rat) :=
      div_nonneg hnum (le_of_lt hpos)
    have hq1 : ((d - mn : Int) : Rat) / ((mx : Int) : Rat) ≤ 1 :=
      (div_le_one hpos).mpr hle
    simp only [jnIn01, decide_eq_true_eq]
    constructor <;> linarith

theorem jsConfidence_mono (d1 d2 mn mx : Int) (h0 : mn ≤ d1) (hd : d1 ≤ d2)
    (h2 : d2 - mn ≤ mx) :
    jnLeB (jsConfidence d2 mn mx) (jsConfidence d1 mn mx) = true := by
  have h0' : mn ≤ d2 := le_trans h0 hd
  have h1 : d1 - mn ≤ mx := by omega
  rw [jsConfidence_val d1 mn mx h0 h1, jsConfidence_val d2 mn mx h0' h2]
  by_cases hmx : mx = 0
  · rw [if_pos hmx, if_pos hmx]; simp [jnLeB]
  · rw [if_neg hmx, if_neg hmx]
    have hpos : (0 : Rat) < ((mx : Int) : Rat) := by
      have : (0 : Int) < mx := by omega
      exact_mod_cast this
    have hnum : ((d1 - mn : Int) : Rat) ≤ ((d2 - mn : Int) : Rat) := by
      have : (d1 - mn : Int) ≤ d2 - mn := by omega
      exact_mod_cast this
    have hdiv := (div_le_div_iff_of_pos_right hpos).mpr hnum
    simp only [jnLeB, decide_eq_true_eq]
    linarith

/-! ### Facts about `normalize` and `getDistances` -/

theorem nonIncreasingB_map (mn mx : Int) :
    ∀ ds : List (String × Int), ds.Pairwise (fun a b => a.2 ≤ b.2) →
      (∀ p ∈ ds, mn ≤ p.2 ∧ p.2 - mn ≤ mx) →
      nonIncreasingB (ds.map (fun nd => (nd.1, jsConfidence nd.2 mn mx))) = true := by
  intro ds
  induction ds with
  | nil => intro _ _; rfl
  | cons d0 tail ih =>
    intro hs hbd
    cases tail with
    | nil => rfl
    | cons d1 rest =>
      simp only [List.map_cons, nonIncreasingB, Bool.and_eq_true]
      rw [List.pairwise_cons] at hs
      constructor
      · exact jsConfidence_mono d0.2 d1.2 mn mx
          (hbd d0 (List.mem_cons_self _ _)).1
          (hs.1 d1 (List.mem_cons_self _ _))
          (hbd d1 (List.mem_cons_of_mem d0 (List.mem_cons_self _ _))).2
      · have := ih hs.2 (fun p hp => hbd p (List.mem_cons_of_mem d0 hp))
        simpa using this

theorem normalize'_props (v : JSStr) (ds : List (String × Int))
    (hs : ds.Pairwise (fun a b => a.2 ≤ b.2))
    (hb : ∀ p ∈ ds, p.2 ≤ (v.length : Int) * 300)
    (r : List (String × JNum)) (hr : normalize' v ds = some r) :
    r.all (fun p => jnIn01 p.2) = true ∧ nonIncreasingB r = true := by
  cases ds with
  | nil => exact absurd hr (by simp [normalize'])
  | cons d0 rest =>
    simp only [normalize', Option.some.injEq] at hr
    subst hr
    have hmn : ∀ p ∈ d0 :: rest, d0.2 ≤ p.2 := by
      intro p hp
      rcases List.mem_cons.mp hp with h1 | h1
      · rw [h1]
      · exact (List.pairwise_cons.mp hs).1 p h1
    have hbd : ∀ p ∈ d0 :: rest, d0.2 ≤ p.2 ∧ p.2 - d0.2 ≤ (v.length : Int) * 300 - d0.2 := by
      intro p hp
      exact ⟨hmn p hp, by have := hb p hp; omega⟩
    constructor
    · rw [List.all_eq_true]
      intro p hp
      obtain ⟨nd, hnd, hpe⟩ := List.mem_map.mp hp
      rw [← hpe]
      exact jsConfidence_in01 nd.2 d0.2 _ (hbd nd hnd).1 (hbd nd hnd).2
        (by have := hb d0 (List.mem_cons_self _ _); omega)
    · exact nonIncreasingB_map d0.2 _ (d0 :: rest) hs hbd

theorem normalize'_isSome (v : JSStr) (ds : List (String × Int)) (h : ds ≠ []) :
    ∃ r, normalize' v ds = some r ∧ r ≠ [] := by
  cases ds with
  | nil => exact absurd rfl h
  | cons d0 rest => exact ⟨_, rfl, by simp [normalize']⟩

theorem normalize'_und (v : JSStr) (hv : v ≠ []) :
    normalize' v [("und", 1)] = some und := by
  have hL : 1 ≤ (v.length : Int) := by
    have := List.length_pos.mpr hv
    omega
  simp only [normalize', List.map_cons, List.map_nil, Option.some.injEq]
  have hval := jsConfidence_val 1 1 ((v.length : Int) * 300 - 1) (le_refl 1) (by omega)
  rw [if_neg (by omega)] at hval
  rw [hval]
  norm_num
  rfl

theorem filterLanguages_subset (languages : List (String × RankTab))
    (only ignore : List String) (nm : String × RankTab)
    (h : nm ∈ filterLanguages languages only ignore) : nm ∈ languages := by
  unfold filterLanguages at h
  split at h
  · exact h
  · exact List.mem_of_mem_filter h

theorem getDistances_ne_nil (trigrams : List (List Nat × Nat))
    (languages : List (String × RankTab)) (only ignore : List String) :
    getDistances trigrams languages only ignore ≠ [] := by
  simp only [getDistances]
  split
  · simp
  · rename_i hne
    intro hcontra
    have hlen := sortLe_length (fun (a b : String × Int) => decide (a.2 ≤ b.2))
      (List.map (fun nm => (nm.1, getDistance trigrams nm.2))
        (filterLanguages languages only ignore))
    rw [hcontra] at hlen
    simp only [List.length_nil] at hlen
    simp only [List.isEmpty_iff] at hne
    have := List.length_pos.mpr hne
    omega

theorem getDistances_sorted (trigrams : List (List Nat × Nat))
    (languages : List (String × RankTab)) (only ignore : List String) :
    (getDistances trigrams languages only ignore).Pairwise (fun a b => a.2 ≤ b.2) := by
  simp only [getDistances]
  split
  · simp
  · exact sortLe_pairwise_distLe _

theorem getDistances_le (trigrams : List (List Nat × Nat))
    (languages : List (String × RankTab)) (only ignore : List String)
    (hS : 1 ≤ sumCounts trigrams)
    (hpos : ∀ p ∈ trigrams, 1 ≤ p.2)
    (hlang : ∀ nm ∈ languages, ∀ tr r, nm.2 tr = some r → r < 300) :
    ∀ p ∈ getDistances trigrams languages only ignore,
      p.2 ≤ 300 * (sumCounts trigrams : Int) := by
  simp only [getDistances]
  split
  · intro p hp
    simp only [List.mem_singleton] at hp
    rw [hp]
    have : (1 : Int) ≤ (sumCounts trigrams : Int) := by exact_mod_cast hS
    omega
  · intro p hp
    have hp' := (sortLe_mem distLe _ p).mp hp
    obtain ⟨nm, hnm, hpe⟩ := List.mem_map.mp hp'
    have hnm' := filterLanguages_subset languages only ignore nm hnm
    rw [← hpe]
    exact getDistance_le trigrams nm.2 (hlang nm hnm') hpos

theorem rankOfModel_bounded_of_length (s : String) (h : (modelList s).length = 300) :
    ∀ tr r, rankOfModel s tr = some r → r < 300 := by
  intro tr r hr
  have := rankOfModel_lt s tr r hr
  omega

theorem latinModels_bounded :
    ∀ nm ∈ latinModels, ∀ tr r, nm.2 tr = some r → r < 300 := by
  intro nm hnm
  have hspa : (modelList spaStr).length = 300 := by decide
  have heng : (modelList engStr).length = 300 := by decide
  have hpor : (modelList porStr).length = 300 := by decide
  have hfra : (modelList fraStr).length = 300 := by decide
  have hdeu : (modelList deuStr).length = 300 := by decide
  have hita : (modelList itaStr).length = 300 := by decide
  have hnld : (modelList nldStr).length = 300 := by decide
  have hpol : (modelList polStr).length = 300 := by decide
  simp only [latinModels, List.mem_cons, List.not_mem_nil, or_false] at hnm
  rcases hnm with h | h | h | h | h | h | h | h <;> rw [h] <;>
    first
    | exact rankOfModel_bounded_of_length spaStr hspa
    | exact rankOfModel_bounded_of_length engStr heng
    | exact rankOfModel_bounded_of_length porStr hpor
    | exact rankOfModel_bounded_of_length fraStr hfra
    | exact rankOfModel_bounded_of_length deuStr hdeu
    | exact rankOfModel_bounded_of_length itaStr hita
    | exact rankOfModel_bounded_of_length nldStr hnld
    | exact rankOfModel_bounded_of_length polStr hpol

/-! ### Facts about the script classifier -/

theorem getOccurrence_nonneg (value : JSStr) (p : ScriptPat) :
    0 ≤ getOccurrence value p := by
  unfold getOccurrence jsRatio
  split
  · exact le_refl 0
  · split
    · exact le_refl 0
    · positivity

theorem foldl_topStep_snd_le (value : JSStr) :
    ∀ (scripts : List (String × ScriptPat)) (cur : Option String × Rat),
      cur.2 ≤ (scripts.foldl (topStep value) cur).2 := by
  intro scripts
  induction scripts with
  | nil => intro cur; exact le_refl _
  | cons s ss ih =>
    intro cur
    simp only [List.foldl_cons]
    refine le_trans ?_ (ih (topStep value cur s))
    simp only [topStep]
    split
    · rename_i h; exact le_of_lt h
    · exact le_refl _

theorem foldl_topStep_stay (value : JSStr) :
    ∀ (scripts : List (String × ScriptPat)) (cur : Option String × Rat),
      (∀ s ∈ scripts, getOccurrence value s.2 ≤ cur.2) →
      scripts.foldl (topStep value) cur = cur := by
  intro scripts
  induction scripts with
  | nil => intro cur _; rfl
  | cons s ss ih =>
    intro cur h
    simp only [List.foldl_cons]
    have hstep : topStep value cur s = cur := by
      simp only [topStep]
      rw [if_neg (not_lt.mpr (h s (List.mem_cons_self s ss)))]
    rw [hstep]
    exact ih cur (fun t ht => h t (List.mem_cons_of_mem s ht))

theorem foldl_topStep_count_le (value : JSStr) :
    ∀ (scripts : List (String × ScriptPat)) (cur : Option String × Rat)
      (s : String × ScriptPat), s ∈ scripts →
      getOccurrence value s.2 ≤ (scripts.foldl (topStep value) cur).2 := by
  intro scripts
  induction scripts with
  | nil => intro cur s h; exact absurd h (List.not_mem_nil s)
  | cons hd tl ih =>
    intro cur s hs
    simp only [List.foldl_cons]
    rcases List.mem_cons.mp hs with h1 | h1
    · refine le_trans ?_ (foldl_topStep_snd_le value tl (topStep value cur hd))
      rw [h1]
      simp only [topStep]
      split
      · exact le_refl _
      · rename_i h; exact not_lt.mp h
    · exact ih (topStep value cur hd) s h1

theorem getTopScript_ratio_zero (value : JSStr) (s0 : String × ScriptPat)
    (rest : List (String × ScriptPat))
    (h : (getTopScript value (s0 :: rest)).2 = 0) :
    getTopScript value (s0 :: rest) = (some s0.1, 0) := by
  have hc0 : 0 ≤ getOccurrence value s0.2 := getOccurrence_nonneg value s0.2
  have hstep : topStep value (none, -1) s0 = (some s0.1, getOccurrence value s0.2) := by
    simp only [topStep]
    rw [if_pos (show ((none : Option String), (-1 : Rat)).2 < getOccurrence value s0.2 by
      simp only []
      linarith)]
  unfold getTopScript at h ⊢
  simp only [List.foldl_cons, hstep] at h ⊢
  have hle := foldl_topStep_snd_le value rest (some s0.1, getOccurrence value s0.2)
  rw [h] at hle
  have hc0eq : getOccurrence value s0.2 = 0 := le_antisymm hle hc0
  rw [hc0eq] at h ⊢
  apply foldl_topStep_stay
  intro s hs
  have hcs := foldl_topStep_count_le value rest (some s0.1, (0 : Rat)) s hs
  rw [h] at hcs
  simpa using hcs

theorem getTopScript_no_match (s0 : String × ScriptPat)
    (rest : List (String × ScriptPat)) (value : JSStr)
    (h : ∀ p ∈ s0 :: rest, countMatches p.2 value = 0) :
    getTopScript value (s0 :: rest) = (some s0.1, 0) := by
  have hocc : ∀ p ∈ s0 :: rest, getOccurrence value p.2 = 0 := by
    intro p hp
    unfold getOccurrence jsRatio
    rw [h p hp]
    split
    · rfl
    · rw [if_pos rfl]
  have hstep : topStep value (none, -1) s0 = (some s0.1, (0 : Rat)) := by
    simp only [topStep]
    rw [hocc s0 (List.mem_cons_self s0 rest)]
    rw [if_pos (by norm_num)]
  unfold getTopScript
  simp only [List.foldl_cons, hstep]
  apply foldl_topStep_stay
  intro s hs
  rw [hocc s (List.mem_cons_of_mem s0 hs)]

/-! ### Facts about the rank-table build loop -/

theorem lookupTable_map_set_ne [DecidableEq α] (k : α) (v : Nat) (t : α) (hne : t ≠ k) :
    ∀ m : List (α × Nat),
      lookupTable (m.map (fun p => if p.1 = k then (p.1, v) else p)) t = lookupTable m t := by
  intro m
  induction m with
  | nil => rfl
  | cons p ps ih =>
    simp only [List.map_cons]
    by_cases hpk : p.1 = k
    · rw [if_pos hpk]
      show lookupTable ((p.1, v) :: _) t = _
      unfold lookupTable
      rw [if_neg (by rw [hpk]; exact fun he => hne he.symm),
        if_neg (fun he : p.1 = t => hne (he.symm.trans hpk))]
      exact ih
    · rw [if_neg hpk]
      unfold lookupTable
      split
      · rfl
      · exact ih

theorem lookupTable_map_set_eq [DecidableEq α] (k : α) (v : Nat) :
    ∀ m : List (α × Nat), m.any (fun p => decide (p.1 = k)) = true →
      lookupTable (m.map (fun p => if p.1 = k then (p.1, v) else p)) k = some v := by
  intro m
  induction m with
  | nil => intro h; simp at h
  | cons p ps ih =>
    intro h
    simp only [List.map_cons]
    by_cases hpk : p.1 = k
    · rw [if_pos hpk]
      show lookupTable ((p.1, v) :: _) k = _
      unfold lookupTable
      rw [if_pos hpk]
    · rw [if_neg hpk]
      unfold lookupTable
      rw [if_neg hpk]
      apply ih
      simp only [List.any_cons, Bool.or_eq_true, decide_eq_true_eq] at h
      rcases h with h | h
      · exact absurd h hpk
      · simpa using h

theorem lookupTable_append_single [DecidableEq α] (k : α) (v : Nat) (t : α) :
    ∀ m : List (α × Nat),
      lookupTable (m ++ [(k, v)]) t
        = match lookupTable m t with
          | some r => some r
          | none => if k = t then some v else none := by
  intro m
  induction m with
  | nil => rfl
  | cons p ps ih =>
    simp only [List.cons_append]
    unfold lookupTable
    split
    · rfl
    · exact ih

theorem lookupTable_not_mem [DecidableEq α] (k : α) :
    ∀ m : List (α × Nat), m.any (fun p => decide (p.1 = k)) = false →
      lookupTable m k = none := by
  intro m
  induction m with
  | nil => intro _; rfl
  | cons p ps ih =>
    intro h
    simp only [List.any_cons, Bool.or_eq_false_iff, decide_eq_false_iff_not] at h
    unfold lookupTable
    rw [if_neg h.1]
    exact ih (by simpa using h.2)

theorem lookupTable_objSet [DecidableEq α] (m : List (α × Nat)) (k : α) (v : Nat) (t : α) :
    lookupTable (objSet m k v) t = if t = k then some v else lookupTable m t := by
  unfold objSet
  by_cases hmem : m.any (fun p => decide (p.1 = k)) = true
  · rw [if_pos hmem]
    by_cases ht : t = k
    · rw [if_pos ht, ht]
      exact lookupTable_map_set_eq k v m hmem
    · rw [if_neg ht]
      exact lookupTable_map_set_ne k v t ht m
  · rw [if_neg hmem]
    rw [lookupTable_append_single]
    by_cases ht : t = k
    · rw [if_pos ht, ht]
      rw [lookupTable_not_mem k m (by rwa [Bool.not_eq_true] at hmem)]
      simp
    · rw [if_neg ht]
      cases hl : lookupTable m t
      · rw [if_neg (fun he : k = t => ht he.symm)]
      · rfl

/-! ### Facts about filtering and the façade's branches -/

theorem allow_single_self (l x : String) : allow l [x] [x] = false := by
  unfold allow
  rw [if_neg (by simp)]
  by_cases h : l = x
  · subst h; simp
  · simp [h]

theorem filterLanguages_single_self (languages : List (String × RankTab)) (x : String) :
    filterLanguages languages [x] [x] = [] := by
  unfold filterLanguages
  rw [if_neg (by simp)]
  apply List.filter_eq_nil_iff.mpr
  intro nm _
  simp [allow_single_self]

theorem francAllP_short (exprs : List (String × ScriptPat))
    (ndata : List (String × List (String × RankTab))) (value : JSStr) (o : Options)
    (h : value = [] ∨ (value.length : Int) < minLengthOf o) :
    francAllP exprs ndata value o = some und := by
  simp only [francAllP]
  rw [if_pos h]

theorem francAllP_main (exprs : List (String × ScriptPat))
    (ndata : List (String × List (String × RankTab))) (value : JSStr) (o : Options)
    (h : ¬(value = [] ∨ (value.length : Int) < minLengthOf o)) :
    francAllP exprs ndata value o
      = match (getTopScript (value.take 2048) exprs).1 with
        | none => some und
        | some s =>
          match List.lookup s ndata with
          | some languages =>
            normalize' (value.take 2048)
              (getDistances (asTuples (value.take 2048)) languages (onlyOf o) (ignoreOf o))
          | none =>
            if (getTopScript (value.take 2048) exprs).2 = 0
                ∨ allow s (onlyOf o) (ignoreOf o) = false then some und
            else some (singleLanguageTuples s) := by
  simp only [francAllP]
  rw [if_neg h]

/-! ### Claim theorems -/

/-- A small rank table used to test the distance function: it ranks the
trigram "aaa" first and contains nothing else. -/
def toyTable : RankTab := fun t => if t = [97, 97, 97] then some 0 else none

/-- C1 (counterexample): on the profile of the ten-character text "aaaaaaaaaa"
and a rank table containing only "aaa" at rank 0, `getDistance` (which uses
the tuple's stored frequency, 8) returns 607, while the claimed
position-based sum returns 601 — the claim's formula does not compute the
code's distance. -/
theorem C1_counterexample :
    getDistance (asTuples (List.replicate 10 97)) toyTable
      ≠ specRankDistance (asTuples (List.replicate 10 97)) toyTable := by
  rw [getDistance_eq_sum]
  decide

/-- C1 (amended): the distance returned by `getDistance` is the sum, over all
(trigram, frequency) pairs of the profile with no truncation, of
`abs(frequency - modelRank - 1)` when the trigram is present in the rank table
and of the fixed penalty 300 when it is absent — where `frequency` is the
tuple's stored frequency value, not its 0-based position in the
descending-frequency-sorted profile. -/
theorem C1_distance_is_frequency_sum (trigrams : List (List Nat × Nat)) (model : RankTab) :
    getDistance trigrams model = (trigrams.map (tupleCost model)).sum :=
  getDistance_eq_sum trigrams model

/-- C4 (counterexample): on a text of three exclamation marks, which matches no
configured script pattern, `getTopScript` does not return `(none, 0)`: it returns the first
configured script with ratio 0, namely `(some "cmn", 0)`. -/
theorem C4_counterexample :
    (∀ p ∈ expressions, countMatches p.2 [33, 33, 33] = 0) ∧
    getTopScript [33, 33, 33] expressions ≠ ((none : Option String), (0 : Rat)) := by
  constructor
  · decide
  · decide

/-- C4 (amended): for every non-empty script table and every text in which no
configured script's pattern matches any character, `getTopScript` returns the
pair `(some s₀, 0)` where `s₀` is the first configured script — a script
identifier is still selected, with occurrence ratio 0 (the caller maps ratio 0
to the undetermined result). -/
theorem C4_no_match_first_script (s0 : String × ScriptPat)
    (rest : List (String × ScriptPat)) (value : JSStr)
    (h : ∀ p ∈ s0 :: rest, countMatches p.2 value = 0) :
    getTopScript value (s0 :: rest) = (some s0.1, 0) :=
  getTopScript_no_match s0 rest value h

theorem C4_witness :
    (∀ p ∈ ("cmn", ScriptPat.mk cmnSingles cmnPairs) :: expressions.tail,
        countMatches p.2 [33, 33, 33] = 0) ∧
    getTopScript [33, 33, 33] (("cmn", ScriptPat.mk cmnSingles cmnPairs) :: expressions.tail)
      = (some "cmn", 0) :=
  ⟨by decide, C4_no_match_first_script ("cmn", ScriptPat.mk cmnSingles cmnPairs)
    expressions.tail [33, 33, 33] (by decide)⟩

/-- C5 (counterexample): building the rank table from malformed raw data is
not rejected: on the duplicate list "the|the" the build loop returns a
well-defined table giving the duplicated trigram its first index 0, and on the
empty string it returns the table mapping the single empty trigram to rank 0 —
no error of any kind is raised. -/
theorem C5_counterexample :
    buildRankTable (modelList "the|the") 0 = [([116, 104, 101], 0)] ∧
    buildRankTable (modelList "") 0 = [([], 0)] := by
  decide

/-- C5 (amended): the build loop performs no validation and never fails: for
every raw model list (with or without duplicates, empty or not) it produces a
table whose lookup of any trigram is that trigram's first index in the list —
a duplicate trigram silently collapses to its smallest index, and nothing in
the core treats the input as fatal. -/
theorem C5_build_total_first_index [DecidableEq α] (model : List α) (i : Nat) (t : α) :
    lookupTable (buildRankTable model i) t = idxFrom i model t := by
  induction model generalizing i with
  | nil => rfl
  | cons x xs ih =>
    show lookupTable (objSet (buildRankTable xs (i + 1)) x i) t = _
    rw [lookupTable_objSet]
    unfold idxFrom
    by_cases h : t = x
    · rw [if_pos h, if_pos h.symm]
    · rw [if_neg h, if_neg (fun he : x = t => h he.symm)]
      exact ih (i + 1)

/-- C6: for every text shorter than the effective minLength (default 10), and
for the empty text, `francAll` returns exactly the single-element sentinel
`[("und", 1)]`. -/
theorem C6_short_input_und (value : JSStr) (options : Options)
    (h : value = [] ∨ (value.length : Int) < minLengthOf options) :
    francAll value options = some und :=
  francAllP_short expressions numericData value options h

theorem C6_witness :
    (([97, 98] : JSStr) = [] ∨
      ((([97, 98] : JSStr).length : Int) < minLengthOf (Options.mk none none none none none))) ∧
    francAll [97, 98] (Options.mk none none none none none) = some und :=
  ⟨Or.inr (by decide),
   C6_short_input_und [97, 98] (Options.mk none none none none none) (Or.inr (by decide))⟩

/-- C8: for every text longer than 2048 units and every options value whose
effective minLength is at most 2048, `francAll` on the full text equals
`francAll` on the first 2048 units: only that prefix influences the output. -/
theorem C8_truncation (value : JSStr) (options : Options)
    (h1 : 2048 < value.length) (h2 : minLengthOf options ≤ 2048) :
    francAll value options = francAll (value.take 2048) options := by
  have hlen : (value.take 2048).length = 2048 := by
    rw [List.length_take]; omega
  have hns1 : ¬(value = [] ∨ (value.length : Int) < minLengthOf options) := by
    push_neg
    refine ⟨fun he => by rw [he] at h1; simp at h1, ?_⟩
    have : (2048 : Int) < (value.length : Int) := by exact_mod_cast h1
    omega
  have hns2 : ¬(value.take 2048 = [] ∨ ((value.take 2048).length : Int) < minLengthOf options) := by
    push_neg
    refine ⟨fun he => by rw [he] at hlen; simp at hlen, ?_⟩
    rw [hlen]
    omega
  rw [francAll, francAll, francAllP_main _ _ _ _ hns1, francAllP_main _ _ _ _ hns2]
  rw [List.take_take, min_self]

theorem C8_witness :
    2048 < (List.replicate 2049 97 : JSStr).length ∧
    minLengthOf (Options.mk none none none none none) ≤ 2048 ∧
    francAll (List.replicate 2049 97) (Options.mk none none none none none)
      = francAll ((List.replicate 2049 97 : JSStr).take 2048) (Options.mk none none none none none) :=
  ⟨by simp, by decide,
   C8_truncation (List.replicate 2049 97) (Options.mk none none none none none) (by simp) (by decide)⟩

/-- C10: the legacy `whitelist`/`blacklist` option names are merged into the
`only`/`ignore` sets before any filtering, so `francAll` with
`{whitelist: L}` equals `francAll` with `{only: L}`, and `{blacklist: L}`
equals `{ignore: L}`. -/
theorem C10_legacy_aliases (value : JSStr) (L : List String) :
    (francAll value (Options.mk none none (some L) none none)
      = francAll value (Options.mk (some L) none none none none)) ∧
    (francAll value (Options.mk none none none (some L) none)
      = francAll value (Options.mk none (some L) none none none)) := by
  constructor <;>
  · simp only [francAll, francAllP, onlyOf, ignoreOf, minLengthOf]
    simp

/-- C9: the `francAll` pipeline of the standalone build (unconditional slice,
unguarded `normalize`) and the pipeline of the annotated development build
(conditional truncation, guarded `normalize`) return equal results for every
input and options, for every shared script table and model store: the
standalone pipeline never reaches the unguarded path with an empty list, and
the conditional slice equals the unconditional one. -/
theorem C9_pipelines_equivalent (exprs : List (String × ScriptPat))
    (ndata : List (String × List (String × RankTab)))
    (value : JSStr) (options : Options) :
    francAllP exprs ndata value options = some (francAllDevP exprs ndata value options) := by
  by_cases h : value = [] ∨ (value.length : Int) < minLengthOf options
  · rw [francAllP_short _ _ _ _ h]
    simp only [francAllDevP]
    rw [if_pos h]
  · rw [francAllP_main _ _ _ _ h]
    simp only [francAllDevP]
    rw [if_neg h]
    have hv : (if 2048 < value.length then value.take 2048 else value) = value.take 2048 := by
      split
      · rfl
      · rename_i hle
        exact (List.take_of_length_le (by omega)).symm
    rw [hv]
    rcases htop : (getTopScript (value.take 2048) exprs).1 with _ | s
    · simp only [htop]
    · rcases hlu : List.lookup s ndata with _ | langs
      · simp only [htop, hlu]
        split <;> rfl
      · simp only [htop, hlu]
        rcases hds : getDistances (asTuples (value.take 2048)) langs (onlyOf options)
            (ignoreOf options) with _ | ⟨d0, rest⟩
        · exact absurd hds (getDistances_ne_nil _ _ _ _)
        · simp [normalize', normalizeDev]

theorem take2048_ne_nil (value : JSStr) (h : value ≠ []) : value.take 2048 ≠ [] := by
  intro hc
  rcases List.take_eq_nil_iff.mp hc with h1 | h1
  · exact absurd h1 (by norm_num)
  · exact h h1

/-- C7: when `only` and `ignore` are not both empty, `allow` holds exactly
when (`only` is empty or the language is in `only`) and the language is not in
`ignore`; consequently, with options `{only: ["fra"], ignore: ["fra"]}` no
candidate survives filtering on any path and `francAll` returns the sentinel
`[("und", 1)]` for every text — ignore takes precedence. -/
theorem C7_filter_conjunctive (lang : String) (only ignore : List String) (value : JSStr)
    (h : ¬(only = [] ∧ ignore = [])) :
    (allow lang only ignore = true ↔ ((only = [] ∨ lang ∈ only) ∧ lang ∉ ignore)) ∧
    francAll value (Options.mk (some ["fra"]) (some ["fra"]) none none none) = some und := by
  constructor
  · unfold allow
    rw [if_neg (by
      simp only [Bool.and_eq_true, List.isEmpty_iff]
      exact fun hc => h hc)]
    simp [List.isEmpty_iff]
  · by_cases h2 : value = [] ∨ (value.length : Int)
        < minLengthOf (Options.mk (some ["fra"]) (some ["fra"]) none none none)
    · exact francAllP_short _ _ _ _ h2
    · rw [francAll, francAllP_main _ _ _ _ h2]
      have honly : onlyOf (Options.mk (some ["fra"]) (some ["fra"]) none none none) = ["fra"] := rfl
      have hignore : ignoreOf (Options.mk (some ["fra"]) (some ["fra"]) none none none) = ["fra"] := rfl
      have hvne : value.take 2048 ≠ [] :=
        take2048_ne_nil value (fun he => h2 (Or.inl he))
      rcases htop : (getTopScript (value.take 2048) expressions).1 with _ | s
      · simp only [htop]
      · rcases hlu : List.lookup s numericData with _ | langs
        · simp only [htop, hlu]
          rw [if_pos (Or.inr (by rw [honly, hignore]; exact allow_single_self s "fra"))]
        · simp only [htop, hlu]
          have hds : getDistances (asTuples (value.take 2048)) langs
              (onlyOf (Options.mk (some ["fra"]) (some ["fra"]) none none none))
              (ignoreOf (Options.mk (some ["fra"]) (some ["fra"]) none none none))
              = [("und", 1)] := by
            simp only [getDistances]
            rw [honly, hignore, filterLanguages_single_self]
            simp
          rw [hds]
          exact normalize'_und (value.take 2048) hvne

theorem C7_witness :
    (¬((["fra"] : List String) = [] ∧ (["fra"] : List String) = [])) ∧
    (allow "eng" ["fra"] ["fra"] = true
      ↔ ((["fra"] : List String) = [] ∨ "eng" ∈ (["fra"] : List String))
          ∧ "eng" ∉ (["fra"] : List String)) ∧
    francAll [97] (Options.mk (some ["fra"]) (some ["fra"]) none none none) = some und :=
  ⟨by decide,
   (C7_filter_conjunctive "eng" ["fra"] ["fra"] [97] (by decide)).1,
   (C7_filter_conjunctive "eng" ["fra"] ["fra"] [97] (by decide)).2⟩

/-- C2: `francAll` is total — for every input string and well-formed options
it returns a value (never the throwing path) and the returned list is
non-empty; each "bad" input — too short or empty, no script match (occurrence
ratio 0), or no surviving Latin candidate after filtering — yields exactly the
ordinary sentinel `[("und", 1)]`. -/
theorem C2_total_nonempty_und (value : JSStr) (options : Options) :
    (∃ r, francAll value options = some r ∧ r ≠ []) ∧
    ((value = [] ∨ (value.length : Int) < minLengthOf options) →
      francAll value options = some und) ∧
    ((getTopScript (value.take 2048) expressions).2 = 0 →
      francAll value options = some und) ∧
    ((getTopScript (value.take 2048) expressions).1 = some "Latin" →
      filterLanguages latinModels (onlyOf options) (ignoreOf options) = [] →
      francAll value options = some und) := by
  refine ⟨?_, fun h => francAllP_short _ _ _ _ h, ?_, ?_⟩
  · by_cases h : value = [] ∨ (value.length : Int) < minLengthOf options
    · exact ⟨und, francAllP_short _ _ _ _ h, by simp [und, singleLanguageTuples]⟩
    · rw [francAll, francAllP_main _ _ _ _ h]
      rcases htop : (getTopScript (value.take 2048) expressions).1 with _ | s
      · exact ⟨und, by simp [htop], by simp [und, singleLanguageTuples]⟩
      · rcases hlu : List.lookup s numericData with _ | langs
        · simp only [htop, hlu]
          split
          · exact ⟨und, rfl, by simp [und, singleLanguageTuples]⟩
          · exact ⟨singleLanguageTuples s, rfl, by simp [singleLanguageTuples]⟩
        · simp only [htop, hlu]
          exact normalize'_isSome _ _ (getDistances_ne_nil _ _ _ _)
  · intro h0
    by_cases h : value = [] ∨ (value.length : Int) < minLengthOf options
    · exact francAllP_short _ _ _ _ h
    · rw [francAll, francAllP_main _ _ _ _ h]
      have hexp : expressions
          = ("cmn", ScriptPat.mk cmnSingles cmnPairs) :: expressions.tail := rfl
      rw [hexp] at h0
      have htop : getTopScript (value.take 2048) expressions = (some "cmn", 0) := by
        rw [hexp]
        exact getTopScript_ratio_zero (value.take 2048) _ _ h0
      rw [htop]
      have hlu : List.lookup "cmn" numericData = none := rfl
      simp only [hlu]
      simp
  · intro hLat hfil
    by_cases h : value = [] ∨ (value.length : Int) < minLengthOf options
    · exact francAllP_short _ _ _ _ h
    · rw [francAll, francAllP_main _ _ _ _ h]
      rw [hLat]
      have hlu : List.lookup "Latin" numericData = some latinModels := rfl
      simp only [hlu]
      have hds : getDistances (asTuples (value.take 2048)) latinModels
          (onlyOf options) (ignoreOf options) = [("und", 1)] := by
        simp only [getDistances]
        rw [hfil]
        simp
      rw [hds]
      exact normalize'_und (value.take 2048)
        (take2048_ne_nil value (fun he => h (Or.inl he)))

theorem C2_witness :
    ∃ r, francAll [97, 97, 97] (Options.mk none none none none none) = some r ∧ r ≠ [] :=
  (C2_total_nonempty_und [97, 97, 97] (Options.mk none none none none none)).1

theorem lookup_numericData (s : String) (langs : List (String × RankTab))
    (h : List.lookup s numericData = some langs) : langs = latinModels := by
  unfold numericData at h
  simp only [List.lookup] at h
  split at h
  · exact (Option.some.injEq _ _ ▸ h).symm
  · simp [List.lookup] at h

theorem jsConfidence_val_ne (d mn mx : Int) (hmx : mx ≠ 0) :
    jsConfidence d mn mx = JNum.fin (1 - ((d - mn : Int) : Rat) / ((mx : Int) : Rat)) := by
  unfold jsConfidence
  have hmx' : ((mx : Int) : Rat) ≠ 0 := by exact_mod_cast hmx
  rw [jsDiv, if_neg hmx']
  rw [jsSub]
  exact jsOr_fin_zero _

/-- The default options value (all fields absent). -/
def defaultOpts : Options := Options.mk none none none none none

/-- The ten-unit text "a\u0130b\u0130c\u0130d\u0130de": it passes the length
guard and is classified Latin, but lowercasing expands each U+0130 into two
units, so the padded text has 16 units and the profile carries 14 windows —
more than the 10 the normalisation denominator accounts for. -/
def cexText : JSStr := [97, 304, 98, 304, 99, 304, 100, 304, 100, 101]

/-- The distance list `francAll` computes for `cexText`, ascending (14 windows
of rare combining-mark trigrams drive every distance above 10·300 = 3000). -/
def cexDs : List (String × Int) :=
  [("por", 3600), ("spa", 3601), ("fra", 3602), ("nld", 3602),
   ("deu", 3799), ("eng", 3900), ("ita", 3900), ("pol", 3900)]

theorem cex_top : getTopScript cexText expressions = (some "Latin", 1) := by
  have hall : ∀ s ∈ expressions.tail.tail, getOccurrence cexText s.2 = 0 := by decide
  have hexp : expressions = ("cmn", ScriptPat.mk cmnSingles cmnPairs)
      :: ("Latin", ScriptPat.mk LatinSingles LatinPairs) :: expressions.tail.tail := rfl
  rw [hexp]
  unfold getTopScript
  simp only [List.foldl_cons]
  rw [show topStep cexText (none, -1) ("cmn", ScriptPat.mk cmnSingles cmnPairs)
      = ((some "cmn" : Option String), (0 : Rat)) from by
    simp only [topStep]
    rw [show getOccurrence cexText (ScriptPat.mk cmnSingles cmnPairs) = 0 from by decide]
    norm_num]
  rw [show topStep cexText ((some "cmn" : Option String), (0 : Rat))
      ("Latin", ScriptPat.mk LatinSingles LatinPairs)
      = ((some "Latin" : Option String), (1 : Rat)) from by
    simp only [topStep]
    rw [show getOccurrence cexText (ScriptPat.mk LatinSingles LatinPairs) = 1 from by
      unfold getOccurrence jsRatio
      rw [show countMatches (ScriptPat.mk LatinSingles LatinPairs) cexText = 10 from by decide,
        show cexText.length = 10 from by decide]
      norm_num]
    rw [if_pos (by norm_num)]]
  apply foldl_topStep_stay
  intro s hs
  rw [hall s hs]
  norm_num

theorem cex_francAll :
    francAll cexText defaultOpts
      = some (cexDs.map (fun nd => (nd.1, jsConfidence nd.2 3600 (-600)))) := by
  have hns : ¬(cexText = [] ∨ (cexText.length : Int) < minLengthOf defaultOpts) := by decide
  rw [francAll, francAllP_main _ _ _ _ hns]
  rw [show cexText.take 2048 = cexText from by decide]
  have htop1 : (getTopScript cexText expressions).1 = some "Latin" := by rw [cex_top]
  simp only [htop1]
  simp only [show List.lookup "Latin" numericData = some latinModels from rfl]
  rw [show onlyOf defaultOpts = [] from rfl, show ignoreOf defaultOpts = [] from rfl]
  rw [show getDistances (asTuples cexText) latinModels [] [] = cexDs from by
    simp only [getDistances, filterLanguages, getDistance_eq_sum]
    decide]
  simp only [normalize', cexDs, List.map_cons, List.map_nil, Option.some.injEq]
  norm_num [cexText]

/-- C3 (counterexample): on the ten-unit input "a\u0130b\u0130c\u0130d\u0130de"
the claim fails: lowercasing expands the text to 14 units, every candidate
distance exceeds 10·300, the normalisation denominator is -600, and the
returned list carries confidences above 1 (up to 3/2) in increasing order —
so neither the [0,1] bound nor the non-increasing sort holds. -/
theorem C3_counterexample :
    ¬(((francAll cexText defaultOpts).getD []).all (fun p => jnIn01 p.2) = true ∧
      nonIncreasingB ((francAll cexText defaultOpts).getD []) = true) := by
  rw [cex_francAll]
  rintro ⟨hall, -⟩
  rw [Option.getD_some, List.all_eq_true] at hall
  have hmem : (("pol", jsConfidence 3900 3600 (-600)) : String × JNum)
      ∈ cexDs.map (fun nd => (nd.1, jsConfidence nd.2 3600 (-600))) := by
    have hm : (("pol", (3900 : Int)) : String × Int) ∈ cexDs := by decide
    exact List.mem_map_of_mem _ hm
  have hj : jnIn01 (jsConfidence 3900 3600 (-600)) = true := hall _ hmem
  rw [jsConfidence_val_ne 3900 3600 (-600) (by norm_num)] at hj
  simp only [jnIn01, decide_eq_true_eq] at hj
  have hle := hj.2
  norm_num at hle

/-- C3 (amended): for every input text and options such that lowercasing the
truncated text does not change its unit length — that is, for every text free
of U+0130, the single default mapping `toLowerCase` expands — every confidence
value in the list returned by `francAll` is a rational in the closed interval
[0, 1] and the list is sorted by non-increasing confidence.  When the text
contains U+0130 the lowercased profile can carry more windows than the
original length, the distances can exceed length·300 and the normalisation
denominator turns negative, producing confidences above 1 in increasing
order, as the counterexample shows. -/
theorem C3_amended_bounds_sorted (value : JSStr) (options : Options)
    (h : ((value.take 2048).flatMap toLowerUnit).length = (value.take 2048).length) :
    ((francAll value options).getD []).all (fun p => jnIn01 p.2) = true ∧
    nonIncreasingB ((francAll value options).getD []) = true := by
  by_cases hshort : value = [] ∨ (value.length : Int) < minLengthOf options
  · rw [francAll, francAllP_short _ _ _ _ hshort]
    exact ⟨by decide, by decide⟩
  · rw [francAll, francAllP_main _ _ _ _ hshort]
    have hvne : value.take 2048 ≠ [] := take2048_ne_nil value (fun he => hshort (Or.inl he))
    rcases htop : (getTopScript (value.take 2048) expressions).1 with _ | s
    · simp only [htop]
      exact ⟨by decide, by decide⟩
    · simp only [htop]
      rcases hlu : List.lookup s numericData with _ | langs
      · simp only [hlu]
        split
        · exact ⟨by decide, by decide⟩
        · refine ⟨?_, rfl⟩
          simp only [singleLanguageTuples, Option.getD_some, List.all_cons, List.all_nil,
            Bool.and_true]
          simp [jnIn01]
      · simp only [hlu]
        have hlangs : langs = latinModels := lookup_numericData s langs hlu
        subst hlangs
        rcases hnorm : normalize' (value.take 2048)
            (getDistances (asTuples (value.take 2048)) latinModels
              (onlyOf options) (ignoreOf options)) with _ | r
        · obtain ⟨r, hr, _⟩ := normalize'_isSome (value.take 2048) _
            (getDistances_ne_nil (asTuples (value.take 2048)) latinModels
              (onlyOf options) (ignoreOf options))
          rw [hr] at hnorm
          cases hnorm
        · have hS : 1 ≤ sumCounts (asTuples (value.take 2048)) := by
            rw [asTuples_sum, h]
            exact List.length_pos.mpr hvne
          have hb : ∀ p ∈ getDistances (asTuples (value.take 2048)) latinModels
              (onlyOf options) (ignoreOf options),
              p.2 ≤ ((value.take 2048).length : Int) * 300 := by
            intro p hp
            have := getDistances_le (asTuples (value.take 2048)) latinModels
              (onlyOf options) (ignoreOf options) hS (asTuples_pos _)
              latinModels_bounded p hp
            rw [asTuples_sum, h] at this
            omega
          have hprops := normalize'_props (value.take 2048) _
            (getDistances_sorted (asTuples (value.take 2048)) latinModels
              (onlyOf options) (ignoreOf options)) hb r hnorm
          simpa using hprops

theorem C3_witness :
    ((((List.replicate 10 97 : JSStr).take 2048).flatMap toLowerUnit).length
        = ((List.replicate 10 97 : JSStr).take 2048).length) ∧
    ((((francAll (List.replicate 10 97) defaultOpts).getD []).all
        (fun p => jnIn01 p.2) = true) ∧
      nonIncreasingB ((francAll (List.replicate 10 97) defaultOpts).getD []) = true) :=
  ⟨by decide, C3_amended_bounds_sorted (List.replicate 10 97) defaultOpts (by decide)⟩

theorem C5_witness :
    lookupTable (buildRankTable (modelList "the|the") 0) [116, 104, 101]
      = idxFrom 0 (modelList "the|the") [116, 104, 101] :=
  C5_build_total_first_index (modelList "the|the") 0 [116, 104, 101]
